import Mathlib

set_option maxRecDepth 100000

/-!
Verification of the Grant-Data Synchronization & Funder-Matching Engine.

This file gives a shallow embedding, in Lean 4, of the core functions of the
repository (the match-cache key derivation, cache lookup and invalidation, the
incremental grant-sync loop, and the funder-matching pipeline), and proves or
refutes the frozen claims about them.

Conventions of the embedding:
* timestamps and dates are modelled as integers (milliseconds since epoch, the
  value JavaScript compares after `new Date(...)`);
* the persistent store is modelled as explicit lists of rows, and Supabase
  query results as values of `Except`/lists so that store errors are explicit;
* `crypto.createHash("sha256")...digest("hex")` is modelled as an
  uninterpreted function parameter `digest : String → String`; every property
  that needs the digest to separate two payloads states the required
  collision-freeness as an explicit hypothesis on the two payloads involved;
* `JSON.stringify` on the fixed-shape cache-key object is modelled by explicit
  string construction with a JSON character escaper;
* JavaScript's `Array.prototype.sort` is specified to be a stable sort; for
  a consistent comparator its result is therefore uniquely determined, and it
  is modelled by the structurally recursive stable insertion sort `sortB`
  with the Boolean comparison derived from the comparator.
-/

/-- Record of `who_what_where` classification entries of a charity profile. -/
structure WhoWhatWhere where
  classification_code : String
  classification_type : String
  classification_desc : String
deriving DecidableEq, Repr

/-- Record of `CharityAoORegion` entries of a charity profile. -/
structure RegionRec where
  region : String
deriving DecidableEq, Repr

/-- The fields of the Charity Commission profile that the matching core reads.
`who_what_where` and `CharityAoORegion` are optional in the TypeScript type
(`?.` access), hence `Option`; `latest_income` may be absent (`|| 0`). -/
structure CharityProfile where
  reg_charity_number : Int
  charity_name : String
  latest_income : Option Int
  latest_expenditure : Option Int
  who_what_where : Option (List WhoWhatWhere)
  CharityAoORegion : Option (List RegionRec)
deriving DecidableEq, Repr

/-- Embedding of `getIncomeBucket` from `matching.ts`: bucket income into
ranges to avoid cache misses on minor changes. -/
def getIncomeBucket (income : Int) : String :=
  if income < 10000 then "micro"
  else if income < 100000 then "small"
  else if income < 500000 then "medium"
  else if income < 1000000 then "large"
  else if income < 5000000 then "major"
  else "national"

/-- Lexicographic comparison of character lists, modelling the code-unit
comparison JavaScript's default `Array.prototype.sort()` performs on
strings. -/
def lexLE : List Char → List Char → Bool
  | [], _ => true
  | _ :: _, [] => false
  | a :: as, b :: bs => if a = b then lexLE as bs else decide (a < b)

/-- Boolean string comparison used to model JavaScript's default
lexicographic `Array.prototype.sort()` on strings. -/
def strLE (a b : String) : Bool := lexLE a.data b.data

/-- Insertion step of a stable insertion sort: `x` is placed before the
first element `y` with `le x y`, so an element inserted earlier stays before
later-inserted elements that compare equal. -/
def insertB {α : Type} (le : α → α → Bool) (x : α) : List α → List α
  | [] => [x]
  | y :: ys => if le x y then x :: y :: ys else y :: insertB le x ys

/-- Stable insertion sort: the extensional behaviour of JavaScript's stable
`Array.prototype.sort` for a consistent comparator. -/
def sortB {α : Type} (le : α → α → Bool) : List α → List α
  | [] => []
  | x :: xs => insertB le x (sortB le xs)

/-- The `xs.join(",")` operation of JavaScript arrays of strings. -/
def joinComma : List String → String
  | [] => ""
  | [s] => s
  | s :: t :: rest => s ++ "," ++ joinComma (t :: rest)

/-- Sort a list of strings and join with commas: the `xs.sort().join(",")`
idiom of `generateCacheKey`. -/
def sortJoin (xs : List String) : String :=
  joinComma (sortB strLE xs)

/-- Codes of the `"What"` classification entries, in list order. -/
def whatCodes (l : List WhoWhatWhere) : List String :=
  (l.filter (fun w => w.classification_type == "What")).map
    (fun w => w.classification_code)

/-- Codes of the `"Who"` classification entries, in list order. -/
def whoCodes (l : List WhoWhatWhere) : List String :=
  (l.filter (fun w => w.classification_type == "Who")).map
    (fun w => w.classification_code)

/-- The `activities` component of the cache-key object: codes of the
`"What"` classifications, sorted and comma-joined; `""` when the
`who_what_where` list is absent. -/
def activitiesOf (p : CharityProfile) : String :=
  match p.who_what_where with
  | none => ""
  | some l => sortJoin (whatCodes l)

/-- The `beneficiaries` component: codes of the `"Who"` classifications,
sorted and comma-joined. -/
def beneficiariesOf (p : CharityProfile) : String :=
  match p.who_what_where with
  | none => ""
  | some l => sortJoin (whoCodes l)

/-- The `regions` component: region names, sorted and comma-joined. -/
def regionsOf (p : CharityProfile) : String :=
  match p.CharityAoORegion with
  | none => ""
  | some l => sortJoin (l.map (fun r => r.region))

/-- JSON escaping of one character, as performed by `JSON.stringify` on the
characters that can actually occur in the cache-key payload. -/
def escChar (c : Char) : String :=
  if c = '"' then "\\\""
  else if c = '\\' then "\\\\"
  else if c = '\n' then "\\n"
  else if c = '\t' then "\\t"
  else if c = '\r' then "\\r"
  else String.singleton c

/-- Character-list form of per-character JSON escaping. -/
def escData : List Char → List Char
  | [] => []
  | c :: cs => (escChar c).data ++ escData cs

/-- JSON escaping of a string (character by character). -/
def jsonEscape (s : String) : String :=
  String.mk (escData s.data)

/-- A JSON string literal: escaped content between double quotes. -/
def jsonStr (s : String) : String :=
  "\"" ++ jsonEscape s ++ "\""

/-- The serialized payload hashed by `generateCacheKey`:
`JSON.stringify({ charityDetails, funderIds: sortedFunderIds })` with
`charityDetails` built exactly as in `matching.ts` (registration number,
income bucket of `latest_income || 0`, sorted joined What codes, sorted
joined Who codes, sorted joined regions) and `sortedFunderIds` the sorted
comma-joined funder-id list. -/
def dataToHash (p : CharityProfile) (funderOrgIds : List String) : String :=
  "\x7b\"charityDetails\":\x7b\"reg_charity_number\":" ++ toString p.reg_charity_number ++
  ",\"income_bucket\":" ++ jsonStr (getIncomeBucket (p.latest_income.getD 0)) ++
  ",\"activities\":" ++ jsonStr (activitiesOf p) ++
  ",\"beneficiaries\":" ++ jsonStr (beneficiariesOf p) ++
  ",\"regions\":" ++ jsonStr (regionsOf p) ++
  "\x7d,\"funderIds\":" ++ jsonStr (sortJoin funderOrgIds) ++ "\x7d"

/-- Embedding of `generateCacheKey`: the first 32 hex characters of the
SHA-256 digest of the serialized payload. The digest itself is the
uninterpreted parameter `digest`. -/
def generateCacheKey (digest : String → String) (p : CharityProfile)
    (funderOrgIds : List String) : String :=
  (digest (dataToHash p funderOrgIds)).take 32

/-! ### Helper lemmas for the cache-key analysis -/

theorem lexLE_trans :
    ∀ a b c, lexLE a b = true → lexLE b c = true → lexLE a c = true
  | [], _, _, _, _ => rfl
  | _ :: _, [], _, h₁, _ => by simp [lexLE] at h₁
  | _ :: _, _ :: _, [], _, h₂ => by simp [lexLE] at h₂
  | x :: as, y :: bs, z :: cs, h₁, h₂ => by
    simp only [lexLE] at h₁ h₂ ⊢
    by_cases hxy : x = y
    · subst hxy
      simp only [if_pos rfl] at h₁
      by_cases hxz : x = z
      · subst hxz
        simp only [if_pos rfl] at h₂ ⊢
        exact lexLE_trans as bs cs h₁ h₂
      · simp only [if_neg hxz] at h₂ ⊢
        exact h₂
    · simp only [if_neg hxy, decide_eq_true_eq] at h₁
      by_cases hyz : y = z
      · subst hyz
        simp only [if_neg hxy, decide_eq_true_eq]
        exact h₁
      · simp only [if_neg hyz, decide_eq_true_eq] at h₂
        have hxz : x < z := lt_trans h₁ h₂
        simp only [if_neg (ne_of_lt hxz), decide_eq_true_eq]
        exact hxz

theorem lexLE_total : ∀ a b, (lexLE a b || lexLE b a) = true
  | [], _ => by simp [lexLE]
  | _ :: _, [] => by simp [lexLE]
  | x :: as, y :: bs => by
    simp only [lexLE]
    by_cases hxy : x = y
    · subst hxy
      simp only [if_pos rfl]
      exact lexLE_total as bs
    · have hyx : y ≠ x := fun h => hxy h.symm
      simp only [if_neg hxy, if_neg hyx, Bool.or_eq_true, decide_eq_true_eq]
      rcases lt_or_gt_of_ne hxy with h | h
      · exact Or.inl h
      · exact Or.inr h

theorem lexLE_antisymm : ∀ a b, lexLE a b = true → lexLE b a = true → a = b
  | [], [], _, _ => rfl
  | [], _ :: _, _, h₂ => by simp [lexLE] at h₂
  | _ :: _, [], h₁, _ => by simp [lexLE] at h₁
  | x :: as, y :: bs, h₁, h₂ => by
    simp only [lexLE] at h₁ h₂
    by_cases hxy : x = y
    · subst hxy
      simp only [if_pos rfl] at h₁ h₂
      rw [lexLE_antisymm as bs h₁ h₂]
    · have hyx : y ≠ x := fun h => hxy h.symm
      simp only [if_neg hxy, if_neg hyx, decide_eq_true_eq] at h₁ h₂
      exact absurd h₂ (lt_asymm h₁)

theorem strLE_trans (a b c : String) (h₁ : strLE a b = true) (h₂ : strLE b c = true) :
    strLE a c = true :=
  lexLE_trans a.data b.data c.data h₁ h₂

theorem strLE_total (a b : String) : (strLE a b || strLE b a) = true :=
  lexLE_total a.data b.data

theorem strLE_antisymm (a b : String) (h₁ : strLE a b = true) (h₂ : strLE b a = true) :
    a = b :=
  String.ext (lexLE_antisymm a.data b.data h₁ h₂)

theorem insertB_perm {α : Type} (le : α → α → Bool) (x : α) :
    ∀ l : List α, (insertB le x l).Perm (x :: l)
  | [] => List.Perm.refl _
  | y :: ys => by
    simp only [insertB]
    split
    · exact List.Perm.refl _
    · exact ((insertB_perm le x ys).cons y).trans (List.Perm.swap x y ys)

theorem sortB_perm {α : Type} (le : α → α → Bool) :
    ∀ l : List α, (sortB le l).Perm l
  | [] => List.Perm.refl _
  | x :: xs => (insertB_perm le x (sortB le xs)).trans ((sortB_perm le xs).cons x)

theorem mem_sortB {α : Type} {le : α → α → Bool} {a : α} {l : List α} :
    a ∈ sortB le l ↔ a ∈ l :=
  (sortB_perm le l).mem_iff

theorem mem_insertB_iff {α : Type} {le : α → α → Bool} {x a : α} {l : List α} :
    a ∈ insertB le x l ↔ a = x ∨ a ∈ l := by
  rw [(insertB_perm le x l).mem_iff]
  exact List.mem_cons

theorem insertB_sorted {α : Type} {le : α → α → Bool}
    (trans : ∀ a b c, le a b = true → le b c = true → le a c = true)
    (total : ∀ a b, (le a b || le b a) = true) (x : α) (l : List α)
    (hl : l.Pairwise (fun a b => le a b = true)) :
    (insertB le x l).Pairwise (fun a b => le a b = true) := by
  induction l with
  | nil => simp [insertB]
  | cons y ys ih =>
    simp only [insertB]
    by_cases hxy : le x y = true
    · simp only [hxy, if_true]
      refine List.Pairwise.cons ?_ hl
      intro b hb
      rcases List.mem_cons.mp hb with rfl | hb
      · exact hxy
      · exact trans x y b hxy (List.rel_of_pairwise_cons hl hb)
    · simp only [hxy, if_false]
      refine List.Pairwise.cons ?_ (ih hl.tail)
      intro b hb
      rcases mem_insertB_iff.mp hb with heq | hb
      · have ht := total x y
        simp only [hxy, Bool.false_or] at ht
        rw [heq]
        exact ht
      · exact List.rel_of_pairwise_cons hl hb

theorem sortB_sorted {α : Type} {le : α → α → Bool}
    (trans : ∀ a b c, le a b = true → le b c = true → le a c = true)
    (total : ∀ a b, (le a b || le b a) = true) :
    ∀ l : List α, (sortB le l).Pairwise (fun a b => le a b = true)
  | [] => List.Pairwise.nil
  | x :: xs => insertB_sorted trans total x (sortB le xs) (sortB_sorted trans total xs)

theorem sortB_eq_of_perm {α : Type} {le : α → α → Bool}
    (trans : ∀ a b c, le a b = true → le b c = true → le a c = true)
    (total : ∀ a b, (le a b || le b a) = true)
    (antisymm : ∀ a b, le a b = true → le b a = true → a = b)
    {l₁ l₂ : List α} (h : l₁.Perm l₂) : sortB le l₁ = sortB le l₂ :=
  List.Perm.eq_of_sorted (fun a b _ _ hab hba => antisymm a b hab hba)
    (sortB_sorted trans total l₁) (sortB_sorted trans total l₂)
    ((sortB_perm le l₁).trans (h.trans (sortB_perm le l₂).symm))

theorem sortJoin_eq_of_perm {l₁ l₂ : List String} (h : l₁.Perm l₂) :
    sortJoin l₁ = sortJoin l₂ := by
  unfold sortJoin
  rw [sortB_eq_of_perm strLE_trans strLE_total strLE_antisymm h]

theorem data_mk (l : List Char) : (String.mk l).data = l := rfl

theorem data_quote : ("\"" : String).data = ['"'] := rfl

/-- Splitting two concatenations at the first occurrence of a delimiter
character that occurs in neither left part. -/
theorem split_at_delim {d : Char} :
    ∀ {a b s₁ s₂ : List Char}, d ∉ a → d ∉ b →
      a ++ d :: s₁ = b ++ d :: s₂ → a = b ∧ s₁ = s₂ := by
  intro a
  induction a with
  | nil =>
    intro b s₁ s₂ _ hb h
    cases b with
    | nil => simpa using h
    | cons y b' =>
      simp only [List.nil_append, List.cons_append, List.cons.injEq] at h
      exact absurd (h.1 ▸ List.mem_cons_self y b') hb
  | cons x a' ih =>
    intro b s₁ s₂ ha hb h
    cases b with
    | nil =>
      simp only [List.cons_append, List.nil_append, List.cons.injEq] at h
      exact absurd (h.1 ▸ List.mem_cons_self x a') ha
    | cons y b' =>
      simp only [List.cons_append, List.cons.injEq] at h
      obtain ⟨hxy, htail⟩ := h
      have ha' : d ∉ a' := fun hm => ha (List.mem_cons_of_mem x hm)
      have hb' : d ∉ b' := fun hm => hb (List.mem_cons_of_mem y hm)
      obtain ⟨h₁, h₂⟩ := ih ha' hb' htail
      exact ⟨by rw [hxy, h₁], h₂⟩

theorem mem_joinComma_data :
    ∀ {l : List String} {c : Char}, c ∈ (joinComma l).data →
      c = ',' ∨ ∃ s ∈ l, c ∈ s.data := by
  intro l
  induction l with
  | nil => intro c h; simp [joinComma] at h
  | cons s rest ih =>
    intro c h
    cases rest with
    | nil =>
      simp only [joinComma] at h
      exact Or.inr ⟨s, by simp, h⟩
    | cons t r =>
      simp only [joinComma, String.data_append] at h
      rcases List.mem_append.mp h with h' | h'
      · rcases List.mem_append.mp h' with h'' | h''
        · exact Or.inr ⟨s, by simp, h''⟩
        · left
          simpa using h''
      · rcases ih h' with h'' | ⟨u, hu, hcu⟩
        · exact Or.inl h''
        · exact Or.inr ⟨u, List.mem_cons_of_mem _ hu, hcu⟩

theorem joinComma_inj :
    ∀ (l₁ l₂ : List String),
      (∀ s ∈ l₁, s ≠ "" ∧ ',' ∉ s.data) →
      (∀ s ∈ l₂, s ≠ "" ∧ ',' ∉ s.data) →
      joinComma l₁ = joinComma l₂ → l₁ = l₂ := by
  intro l₁
  induction l₁ with
  | nil =>
    intro l₂ _ hg₂ h
    cases l₂ with
    | nil => rfl
    | cons b r =>
      cases r with
      | nil =>
        exact absurd h.symm (hg₂ b (by simp)).1
      | cons b' r' =>
        have hd := congrArg String.data h
        simp only [joinComma, String.data_append] at hd
        exact absurd hd.symm (by simp)
  | cons a rest ih =>
    intro l₂ hg₁ hg₂ h
    cases rest with
    | nil =>
      cases l₂ with
      | nil => exact absurd h (hg₁ a (by simp)).1
      | cons b r =>
        cases r with
        | nil => simpa [joinComma] using h
        | cons b' r' =>
          have hd := congrArg String.data h
          simp only [joinComma, String.data_append] at hd
          have : ',' ∈ a.data := by
            rw [hd]
            simp
          exact absurd this (hg₁ a (by simp)).2
    | cons a' t =>
      cases l₂ with
      | nil =>
        have hd := congrArg String.data h
        simp only [joinComma, String.data_append] at hd
        exact absurd hd (by simp)
      | cons b r =>
        cases r with
        | nil =>
          have hd := congrArg String.data h
          simp only [joinComma, String.data_append] at hd
          have : ',' ∈ b.data := by
            rw [← hd]
            simp
          exact absurd this (hg₂ b (by simp)).2
        | cons b' r' =>
          have hd := congrArg String.data h
          simp only [joinComma, String.data_append, List.append_assoc] at hd
          have hd' : a.data ++ ',' :: (joinComma (a' :: t)).data
              = b.data ++ ',' :: (joinComma (b' :: r')).data := by
            simpa using hd
          obtain ⟨h₁, h₂⟩ := split_at_delim (hg₁ a (by simp)).2 (hg₂ b (by simp)).2 hd'
          have hab : a = b := String.ext h₁
          have hrest : joinComma (a' :: t) = joinComma (b' :: r') := String.ext h₂
          have htl := ih (b' :: r')
            (fun s hs => hg₁ s (List.mem_cons_of_mem a hs))
            (fun s hs => hg₂ s (List.mem_cons_of_mem b hs)) hrest
          rw [hab, htl]

/-- Fixed prefix of the serialized payload, up to the opening quote of the
`activities` field. -/
def keyHeader (p : CharityProfile) : String :=
  "\x7b\"charityDetails\":\x7b\"reg_charity_number\":" ++ toString p.reg_charity_number ++
  ",\"income_bucket\":" ++ jsonStr (getIncomeBucket (p.latest_income.getD 0)) ++
  ",\"activities\":"

/-- Fixed suffix of the serialized payload, from the comma after the
`beneficiaries` field. -/
def keyTail (p : CharityProfile) (fs : List String) : String :=
  ",\"regions\":" ++ jsonStr (regionsOf p) ++
  "\x7d,\"funderIds\":" ++ jsonStr (sortJoin fs) ++ "\x7d"

theorem dataToHash_shape (p : CharityProfile) (fs : List String) :
    (dataToHash p fs).data =
      (keyHeader p).data ++ '"' :: (escData (activitiesOf p).data ++
        '"' :: ((",\"beneficiaries\":" : String).data ++
          '"' :: (escData (beneficiariesOf p).data ++
            '"' :: (keyTail p fs).data))) := by
  simp only [dataToHash, keyHeader, keyTail, jsonStr, jsonEscape,
    String.data_append, data_mk, data_quote, List.append_assoc,
    List.singleton_append, List.cons_append, List.nil_append]

/-- Generic extraction of the two escaped middle fields from equality of the
two serialized payloads, given that the fields do not contain a quote. -/
theorem two_field_eq {pre mid post a₁ a₂ b₁ b₂ : List Char}
    (ha₁ : '"' ∉ a₁) (ha₂ : '"' ∉ a₂) (hb₁ : '"' ∉ b₁) (hb₂ : '"' ∉ b₂)
    (h : pre ++ '"' :: (a₁ ++ '"' :: (mid ++ '"' :: (b₁ ++ '"' :: post)))
       = pre ++ '"' :: (a₂ ++ '"' :: (mid ++ '"' :: (b₂ ++ '"' :: post)))) :
    a₁ = a₂ ∧ b₁ = b₂ := by
  have h₁ := List.append_cancel_left h
  simp only [List.cons.injEq, true_and] at h₁
  obtain ⟨hA, hrest⟩ := split_at_delim ha₁ ha₂ h₁
  have h₂ := List.append_cancel_left hrest
  simp only [List.cons.injEq, true_and] at h₂
  obtain ⟨hB, -⟩ := split_at_delim hb₁ hb₂ h₂
  exact ⟨hA, hB⟩

/-- A classification code is well-behaved for cache-key purposes if it is
nonempty, comma-free, and consists of characters the JSON escaper leaves
unchanged. -/
def goodCode (s : String) : Prop :=
  s ≠ "" ∧ ∀ c ∈ s.data, c ≠ ',' ∧ escChar c = String.singleton c

instance (s : String) : Decidable (goodCode s) := by
  unfold goodCode
  infer_instance

theorem escData_id {cs : List Char} (h : ∀ c ∈ cs, escChar c = String.singleton c) :
    escData cs = cs := by
  induction cs with
  | nil => rfl
  | cons c cs ih =>
    simp only [escData, h c (by simp), data_mk]
    rw [ih (fun c' hc' => h c' (List.mem_cons_of_mem c hc'))]
    rfl

theorem sortJoin_chars_plain {l : List String} (h : ∀ s ∈ l, goodCode s) :
    ∀ c ∈ (sortJoin l).data, escChar c = String.singleton c := by
  intro c hc
  rcases mem_joinComma_data hc with rfl | ⟨s, hs, hcs⟩
  · rfl
  · exact ((h s (mem_sortB.mp hs)).2 c hcs).2

theorem escData_sortJoin {l : List String} (h : ∀ s ∈ l, goodCode s) :
    escData (sortJoin l).data = (sortJoin l).data :=
  escData_id (sortJoin_chars_plain h)

theorem quote_not_mem_sortJoin {l : List String} (h : ∀ s ∈ l, goodCode s) :
    '"' ∉ (sortJoin l).data := by
  intro hq
  have := sortJoin_chars_plain h '"' hq
  exact absurd this (by decide)

theorem sortJoin_inj {l₁ l₂ : List String}
    (h₁ : ∀ s ∈ l₁, goodCode s) (h₂ : ∀ s ∈ l₂, goodCode s)
    (h : sortJoin l₁ = sortJoin l₂) : l₁.Perm l₂ := by
  have hsorts := joinComma_inj (sortB strLE l₁) (sortB strLE l₂)
    (fun s hs => by
      have hg := h₁ s (mem_sortB.mp hs)
      exact ⟨hg.1, fun hc => (hg.2 ',' hc).1 rfl⟩)
    (fun s hs => by
      have hg := h₂ s (mem_sortB.mp hs)
      exact ⟨hg.1, fun hc => (hg.2 ',' hc).1 rfl⟩)
    h
  exact (sortB_perm strLE l₁).symm.trans
    (hsorts ▸ sortB_perm strLE l₂)

theorem activitiesOf_update (p : CharityProfile) (w : List WhoWhatWhere) :
    activitiesOf { p with who_what_where := some w } = sortJoin (whatCodes w) := rfl

theorem beneficiariesOf_update (p : CharityProfile) (w : List WhoWhatWhere) :
    beneficiariesOf { p with who_what_where := some w } = sortJoin (whoCodes w) := rfl

/-- Concrete profile used in the cache-key witnesses and counterexample. -/
def wProf : CharityProfile :=
  { reg_charity_number := 123
    charity_name := "Test Charity"
    latest_income := some 52000
    latest_expenditure := none
    who_what_where := none
    CharityAoORegion := some [⟨"London"⟩] }

/-- C1 (amended): the cache key is invariant under permutation of the
funder-id list and under income changes within the same bucket, and — for
nonempty, comma-free, escape-neutral classification codes, and a digest that
does not collide on the two serialized payloads — the key changes whenever
the multiset of "What" or "Who" classification codes changes. -/
theorem generateCacheKey_determinism (digest : String → String) :
    (∀ (p : CharityProfile) (fs fs' : List String), fs.Perm fs' →
        generateCacheKey digest p fs = generateCacheKey digest p fs')
    ∧ (∀ (p : CharityProfile) (i i' : Int) (fs : List String),
        getIncomeBucket i = getIncomeBucket i' →
        generateCacheKey digest { p with latest_income := some i } fs
          = generateCacheKey digest { p with latest_income := some i' } fs)
    ∧ (∀ (p : CharityProfile) (w₁ w₂ : List WhoWhatWhere) (fs : List String),
        (∀ s ∈ whatCodes w₁, goodCode s) → (∀ s ∈ whatCodes w₂, goodCode s) →
        (∀ s ∈ whoCodes w₁, goodCode s) → (∀ s ∈ whoCodes w₂, goodCode s) →
        (¬ (whatCodes w₁).Perm (whatCodes w₂) ∨ ¬ (whoCodes w₁).Perm (whoCodes w₂)) →
        ((digest (dataToHash { p with who_what_where := some w₁ } fs)).take 32
            = (digest (dataToHash { p with who_what_where := some w₂ } fs)).take 32 →
          dataToHash { p with who_what_where := some w₁ } fs
            = dataToHash { p with who_what_where := some w₂ } fs) →
        generateCacheKey digest { p with who_what_where := some w₁ } fs
          ≠ generateCacheKey digest { p with who_what_where := some w₂ } fs) := by
  refine ⟨?_, ?_, ?_⟩
  · intro p fs fs' hperm
    unfold generateCacheKey dataToHash
    rw [sortJoin_eq_of_perm hperm]
  · intro p i i' fs hb
    unfold generateCacheKey dataToHash
    simp only [Option.getD_some]
    rw [hb]
    rfl
  · intro p w₁ w₂ fs hgW1 hgW2 hgO1 hgO2 hdiff hcoll hkey
    unfold generateCacheKey at hkey
    have hpay := hcoll hkey
    have hd := congrArg String.data hpay
    rw [dataToHash_shape, dataToHash_shape] at hd
    have hhead : keyHeader { p with who_what_where := some w₁ }
        = keyHeader { p with who_what_where := some w₂ } := rfl
    have htail : keyTail { p with who_what_where := some w₁ } fs
        = keyTail { p with who_what_where := some w₂ } fs := rfl
    rw [hhead, htail, activitiesOf_update, activitiesOf_update,
      beneficiariesOf_update, beneficiariesOf_update,
      escData_sortJoin hgW1, escData_sortJoin hgW2,
      escData_sortJoin hgO1, escData_sortJoin hgO2] at hd
    obtain ⟨hA, hB⟩ := two_field_eq (quote_not_mem_sortJoin hgW1)
      (quote_not_mem_sortJoin hgW2) (quote_not_mem_sortJoin hgO1)
      (quote_not_mem_sortJoin hgO2) hd
    rcases hdiff with hW | hO
    · exact hW (sortJoin_inj hgW1 hgW2 (String.ext hA))
    · exact hO (sortJoin_inj hgO1 hgO2 (String.ext hB))

/-- Witness for C1: concrete applications of all three parts of
`generateCacheKey_determinism` — funder permutation, the incomes 52,000 and
61,000 of the spec's "small bucket" scenario, and a change of "What" codes
that changes the key under a digest separating the two payloads. -/
theorem generateCacheKey_determinism_witness :
    generateCacheKey (fun s => toString s.length) wProf ["GB-2", "GB-1"]
        = generateCacheKey (fun s => toString s.length) wProf ["GB-1", "GB-2"]
    ∧ generateCacheKey (fun s => toString s.length)
          { wProf with latest_income := some 52000 } ["GB-1"]
        = generateCacheKey (fun s => toString s.length)
          { wProf with latest_income := some 61000 } ["GB-1"]
    ∧ generateCacheKey (fun s => toString s.length)
          { wProf with who_what_where := some [⟨"A1", "What", "d"⟩] } ["GB-1"]
        ≠ generateCacheKey (fun s => toString s.length)
          { wProf with who_what_where := some [⟨"A22", "What", "d"⟩] } ["GB-1"] :=
  ⟨(generateCacheKey_determinism _).1 wProf _ _ (by decide),
   (generateCacheKey_determinism _).2.1 wProf 52000 61000 ["GB-1"] (by decide),
   (generateCacheKey_determinism _).2.2 wProf _ _ ["GB-1"] (by decide) (by decide)
     (by decide) (by decide) (by decide) (by decide)⟩

/-- Counterexample for C1 as frozen: the classification codes are joined with
commas before hashing, so the code sets `{"a,b"}` and `{"a", "b"}` — which
differ as sets — produce the identical serialized payload, and hence the
identical cache key for every digest (shown here for the identity digest;
equality of `dataToHash` makes the keys equal for SHA-256 as well). -/
theorem generateCacheKey_comma_ambiguity :
    ¬ (whatCodes [⟨"a,b", "What", "d"⟩]).Perm
        (whatCodes [⟨"a", "What", "d"⟩, ⟨"b", "What", "e"⟩])
    ∧ dataToHash { wProf with who_what_where := some [⟨"a,b", "What", "d"⟩] } ["GB-1"]
        = dataToHash { wProf with
            who_what_where := some [⟨"a", "What", "d"⟩, ⟨"b", "What", "e"⟩] } ["GB-1"]
    ∧ generateCacheKey (fun s => s)
          { wProf with who_what_where := some [⟨"a,b", "What", "d"⟩] } ["GB-1"]
        = generateCacheKey (fun s => s)
          { wProf with
            who_what_where := some [⟨"a", "What", "d"⟩, ⟨"b", "What", "e"⟩] } ["GB-1"] := by
  refine ⟨by decide, by decide, by decide⟩

/-! ### Data model of the matching pipeline and the match cache -/

/-- Five scoring factors of the matching response schema. -/
structure ScoreBreakdown where
  mission_alignment : Int
  geographic_fit : Int
  size_compatibility : Int
  activity_level : Int
  historical_precedent : Int
deriving DecidableEq, Repr

/-- Entry of `similar_charities_funded` in the matching response. -/
structure SimilarCharity where
  charity_name : String
  grant_amount : Int
  award_date : String
  grant_purpose : String
deriving DecidableEq, Repr

/-- Row of the `organisations` table. The stats blobs are opaque payloads
(the matching pipeline and the sync flow copy them around but never inspect
their structure). -/
structure Organisation where
  org_id : String
  name : String
  is_funder : Bool
  is_recipient : Bool
  funder_stats : Option String
  recipient_stats : Option String
  last_grant_made_date : Option Int
deriving DecidableEq, Repr

/-- Row of the `grants` table, restricted to the fields the matching
pipeline reads. -/
structure Grant where
  grant_id : String
  title : Option String
  description : Option String
  amount_awarded : Int
  currency : String
  award_date : Option Int
  funder_org_id : Option String
  recipient_org_id : Option String
deriving DecidableEq, Repr

/-- Element of the JSON array returned by the scoring service
(`MatchResponseItem` in `matching.ts`). -/
structure MatchResponseItem where
  funder_org_id : String
  match_score : Int
  score_breakdown : ScoreBreakdown
  reasoning : String
  similar_charities_funded : Option (List SimilarCharity)
deriving DecidableEq, Repr

/-- A validated funder match (`FunderMatch` in the types module). -/
structure FunderMatch where
  funder : Organisation
  match_score : Int
  score_breakdown : ScoreBreakdown
  reasoning : String
  similar_charities_funded : List SimilarCharity
deriving DecidableEq, Repr

/-- Row of the `match_cache` table. -/
structure MatchCacheEntry where
  charity_number : Int
  cache_key : String
  charity_name : Option String
  «matches» : List FunderMatch
  funder_count : Nat
  last_sync_at : Option Int
  created_at : Int
  expires_at : Int
deriving DecidableEq, Repr

/-- SQL `column < value` comparison on a nullable column: a NULL value
compares as unknown, so the row does not match the condition. -/
def sqlLtNull : Option Int → Int → Bool
  | none, _ => false
  | some t, d => decide (t < d)

/-- The Supabase query issued by `checkCache`: rows of `match_cache` with
the given `charity_number` and `cache_key` whose `expires_at` is strictly
in the future. -/
def matchCacheQuery (store : List MatchCacheEntry) (charityNumber : Int)
    (cacheKey : String) (now : Int) : List MatchCacheEntry :=
  store.filter (fun e =>
    e.charity_number == charityNumber && e.cache_key == cacheKey
      && decide (now < e.expires_at))

/-- Result shape of `checkCache` (`CacheResult` in `matching.ts`). -/
structure CacheResult where
  hit : Bool
  «matches» : Option (List FunderMatch)
deriving DecidableEq, Repr

/-- PostgREST `.single()`: succeeds only when the result set has exactly one
row. -/
def singleRow {α : Type} : List α → Option α
  | [e] => some e
  | _ => none

/-- Embedding of `checkCache`: a store error, an empty result, or a
non-single result all degrade to a cache miss; a single non-expired row is a
hit carrying the stored matches. -/
def checkCache (queryResult : Except String (List MatchCacheEntry)) : CacheResult :=
  match queryResult with
  | .error _ => { hit := false, «matches» := none }
  | .ok rows =>
    match singleRow rows with
    | none => { hit := false, «matches» := none }
    | some e => { hit := true, «matches» := some e.«matches» }

/-- Embedding of `invalidateCacheBeforeSync` (success path): delete every
row whose `last_sync_at` is strictly before `syncDate` (a NULL
`last_sync_at` never matches the SQL `lt` condition), and return the new
store together with the number of deleted rows (`data.length` of the
delete-returning query). The catch branch of the source returns 0 and
deletes nothing. -/
def invalidateCacheBeforeSync (syncDate : Int) (store : List MatchCacheEntry) :
    List MatchCacheEntry × Nat :=
  (store.filter (fun e => !sqlLtNull e.last_sync_at syncDate),
   (store.filter (fun e => sqlLtNull e.last_sync_at syncDate)).length)

/-- C4: a cache entry stored with `last_sync_at = T1` is gone after
`invalidateCacheBeforeSync T2` with `T2 > T1`: a lookup for its
`(charity_number, cache_key)` misses for every `now`, even one at which
`expires_at` has not elapsed; and the call reports exactly the number of
rows it removed. The pairwise hypothesis is the UNIQUE
`(charity_number, cache_key)` constraint of the `match_cache` table. -/
theorem invalidateCacheBeforeSync_freshness
    (store : List MatchCacheEntry) (e : MatchCacheEntry) (t1 t2 : Int)
    (he : e ∈ store) (hsync : e.last_sync_at = some t1) (hlt : t1 < t2)
    (huniq : store.Pairwise (fun a b =>
      ¬(a.charity_number = b.charity_number ∧ a.cache_key = b.cache_key))) :
    (∀ now : Int,
      checkCache (.ok (matchCacheQuery (invalidateCacheBeforeSync t2 store).1
        e.charity_number e.cache_key now)) = { hit := false, «matches» := none })
    ∧ (invalidateCacheBeforeSync t2 store).2
        = store.length - (invalidateCacheBeforeSync t2 store).1.length := by
  constructor
  · intro now
    have hquery : matchCacheQuery (invalidateCacheBeforeSync t2 store).1
        e.charity_number e.cache_key now = [] := by
      unfold matchCacheQuery
      rw [List.filter_eq_nil_iff]
      intro r hr
      have hr' := List.mem_filter.mp hr
      intro hcond
      simp only [Bool.and_eq_true, beq_iff_eq, decide_eq_true_eq] at hcond
      by_cases hre : r = e
      · subst hre
        rw [hsync] at hr'
        simp only [sqlLtNull, decide_eq_true_eq, Bool.not_eq_eq_eq_not,
          Bool.not_true, decide_eq_false_iff_not, not_lt] at hr'
        exact absurd hlt (not_lt.mpr hr'.2)
      · have hsym : Symmetric (fun a b : MatchCacheEntry =>
            ¬(a.charity_number = b.charity_number ∧ a.cache_key = b.cache_key)) := by
          intro a b hab ⟨h1, h2⟩
          exact hab ⟨h1.symm, h2.symm⟩
        exact huniq.forall hsym hr'.1 he hre ⟨hcond.1.1, hcond.1.2⟩
    rw [hquery]
    rfl
  · unfold invalidateCacheBeforeSync
    simp only
    have hpart := @List.length_eq_length_filter_add MatchCacheEntry store
      (fun e : MatchCacheEntry => sqlLtNull e.last_sync_at t2)
    omega

/-- Concrete cache entry for the C4 witness. -/
def wEntry : MatchCacheEntry :=
  { charity_number := 7, cache_key := "k", charity_name := none,
    «matches» := [], funder_count := 0, last_sync_at := some 10,
    created_at := 0, expires_at := 1000 }

/-- Witness for C4: a single stored entry with `last_sync_at = 10`,
invalidated with sync date 20, misses at `now = 0` although its
`expires_at = 1000` has not elapsed, and one row is reported removed. -/
theorem invalidateCacheBeforeSync_freshness_witness :
    checkCache (.ok (matchCacheQuery
        (invalidateCacheBeforeSync 20 [wEntry]).1 7 "k" 0))
      = { hit := false, «matches» := none }
    ∧ (invalidateCacheBeforeSync 20 [wEntry]).2 = 1 :=
  ⟨(invalidateCacheBeforeSync_freshness [wEntry] wEntry 10 20
      (List.mem_singleton.mpr rfl) rfl (by decide) (by decide)).1 0,
   by decide⟩

/-- C10: `invalidateCacheBeforeSync` never deletes an entry whose
`last_sync_at` is NULL (the SQL `lt` condition does not match NULL), nor an
entry with `last_sync_at ≥ syncDate`; such entries survive every freshness
invalidation. -/
theorem invalidateCacheBeforeSync_frame (syncDate : Int)
    (store : List MatchCacheEntry) (e : MatchCacheEntry) (he : e ∈ store)
    (hkeep : e.last_sync_at = none
      ∨ ∃ t, e.last_sync_at = some t ∧ syncDate ≤ t) :
    e ∈ (invalidateCacheBeforeSync syncDate store).1 := by
  unfold invalidateCacheBeforeSync
  refine List.mem_filter.mpr ⟨he, ?_⟩
  rcases hkeep with hnone | ⟨t, ht, hge⟩
  · simp [sqlLtNull, hnone]
  · simp [sqlLtNull, ht, not_lt.mpr hge]

/-- Witness for C10: an entry computed before any sync completed
(`last_sync_at = NULL`) survives an invalidation with an arbitrarily large
sync date. -/
theorem invalidateCacheBeforeSync_frame_witness :
    ({ charity_number := 7, cache_key := "k", charity_name := none,
       «matches» := [], funder_count := 0, last_sync_at := none,
       created_at := 0, expires_at := 1000 } : MatchCacheEntry)
      ∈ (invalidateCacheBeforeSync 1000000
        [{ charity_number := 7, cache_key := "k", charity_name := none,
           «matches» := [], funder_count := 0, last_sync_at := none,
           created_at := 0, expires_at := 1000 }]).1 :=
  invalidateCacheBeforeSync_frame 1000000 _ _ (List.mem_singleton.mpr rfl)
    (Or.inl rfl)

/-! ### The grant phase of the sync route (`syncGrantsForFunders`) -/

/-- Raw grant record of one element of a `grants_made` page: `grant_id` and
the `funders`/`recipients` org-id arrays sit beside the `data` object whose
fields (`awardDate`, `title`, ...) are flattened here. `awardDate` is the
parsed timestamp; `none` models an absent (falsy) award date. -/
structure GrantData where
  grant_id : String
  title : Option String
  description : Option String
  amountAwarded : Int
  currency : Option String
  awardDate : Option Int
  funders : List String
  recipients : List String
deriving DecidableEq, Repr

/-- Options of the sync run (`SyncOptions` in the route). -/
structure SyncOptions where
  maxOrgs : Nat
  maxGrants : Nat
  offset : Nat
  incremental : Bool
  lastSyncDate : Option Int
deriving DecidableEq, Repr

/-- External collaborators of the grant phase: `grantsMade f` is the result
of `getGrantsMade(f, 100, 0).results`; an `error` models a thrown fetch
failure, which the per-funder `try/catch` logs and skips. -/
structure SyncEnv where
  grantsMade : String → Except String (List GrantData)

/-- State threaded through the grant loop: counters, the grants table, the
`last_grant_made_date` updates performed on `organisations`, and the log of
grant rows upserted (in order). -/
structure SyncState where
  synced : Nat
  skipped : Nat
  grantsTable : List Grant
  orgUpdates : List (String × Option Int)
  upserts : List Grant
deriving Repr

/-- Upsert keyed on `grant_id`: replace the existing row or append. -/
def upsertGrant (r : Grant) (t : List Grant) : List Grant :=
  if t.any (fun g => g.grant_id == r.grant_id) then
    t.map (fun g => if g.grant_id == r.grant_id then r else g)
  else t ++ [r]

/-- The grant row built by the sync loop: currency defaults to GBP, the
funder org id falls back from `funders[0]` to the queried funder, the
recipient to null. The raw payload fields not read anywhere
(`grant_programme`, `classifications`, `beneficiary_location`, `raw_data`)
are not modelled. -/
def toGrantRow (funderOrgId : String) (g : GrantData) : Grant :=
  { grant_id := g.grant_id
    title := g.title
    description := g.description
    amount_awarded := g.amountAwarded
    currency := g.currency.getD "GBP"
    award_date := g.awardDate
    funder_org_id := some (g.funders.head?.getD funderOrgId)
    recipient_org_id := g.recipients.head? }

/-- The incremental skip test of the loop body:
`options.incremental && options.lastSyncDate && awardDate` and then
`new Date(awardDate) < new Date(options.lastSyncDate)`. -/
def isOldGrant (opts : SyncOptions) (g : GrantData) : Bool :=
  opts.incremental &&
    (match opts.lastSyncDate, g.awardDate with
     | some d, some a => decide (a < d)
     | _, _ => false)

/-- Award date strictly before `D` (the skip test with the incremental
conditions already known to hold). -/
def oldGrant (D : Int) (g : GrantData) : Bool :=
  match g.awardDate with
  | some a => decide (a < D)
  | none => false

/-- One iteration of the inner grant loop of `syncGrantsForFunders`: stop at
the cap, skip old grants, skip already-present grants (probed with
`.single()`), otherwise upsert keyed on `grant_id` and count as synced. -/
def processGrant (opts : SyncOptions) (funderOrgId : String)
    (st : SyncState) (g : GrantData) : SyncState :=
  if st.synced ≥ opts.maxGrants then st
  else if isOldGrant opts g then { st with skipped := st.skipped + 1 }
  else if opts.incremental
      && (singleRow (st.grantsTable.filter
            (fun r => r.grant_id == g.grant_id))).isSome then
    { st with skipped := st.skipped + 1 }
  else
    let row := toGrantRow funderOrgId g
    { st with
      synced := st.synced + 1
      grantsTable := upsertGrant row st.grantsTable
      upserts := st.upserts ++ [row] }

/-- One iteration of the outer funder loop: stop at the cap, fetch the
funder's page (a thrown fetch error is caught and the funder skipped),
process each grant, then — when the page is non-empty — update the funder
organisation's `last_grant_made_date` with `results[0].data.awardDate`. -/
def processFunder (env : SyncEnv) (opts : SyncOptions)
    (st : SyncState) (funder : Organisation) : SyncState :=
  if st.synced ≥ opts.maxGrants then st
  else
    match env.grantsMade funder.org_id with
    | .error _ => st
    | .ok page =>
      let st' := page.foldl (processGrant opts funder.org_id) st
      match page with
      | [] => st'
      | g0 :: _ =>
        { st' with orgUpdates := st'.orgUpdates ++ [(funder.org_id, g0.awardDate)] }

/-- Initial state of the grant phase over a given grants table. -/
def initialSyncState (initialGrants : List Grant) : SyncState :=
  { synced := 0, skipped := 0, grantsTable := initialGrants,
    orgUpdates := [], upserts := [] }

/-- Embedding of `syncGrantsForFunders`: fold the funder loop over the
funders selected from the store. -/
def syncGrantsForFunders (env : SyncEnv) (opts : SyncOptions)
    (funders : List Organisation) (initialGrants : List Grant) : SyncState :=
  funders.foldl (processFunder env opts) (initialSyncState initialGrants)

/-- The page a funder contributes: its fetched results, or nothing when the
fetch failed. -/
def pageOf (env : SyncEnv) (f : Organisation) : List GrantData :=
  match env.grantsMade f.org_id with
  | .ok page => page
  | .error _ => []

/-- Number of grants of a page whose award date predates `D`. -/
def countOldPage (D : Int) (page : List GrantData) : Nat :=
  (page.filter (oldGrant D)).length

theorem processGrant_synced_le (opts : SyncOptions) (fid : String)
    (st : SyncState) (g : GrantData) :
    st.synced ≤ (processGrant opts fid st g).synced := by
  unfold processGrant
  split
  · exact Nat.le_refl _
  · split
    · exact Nat.le_refl _
    · split
      · exact Nat.le_refl _
      · exact Nat.le_succ _

theorem processGrant_skipped_le (opts : SyncOptions) (fid : String)
    (st : SyncState) (g : GrantData) :
    st.skipped ≤ (processGrant opts fid st g).skipped := by
  unfold processGrant
  split
  · exact Nat.le_refl _
  · split
    · exact Nat.le_succ _
    · split
      · exact Nat.le_succ _
      · exact Nat.le_refl _

theorem foldl_processGrant_synced_le (opts : SyncOptions) (fid : String) :
    ∀ (page : List GrantData) (st : SyncState),
      st.synced ≤ (page.foldl (processGrant opts fid) st).synced
  | [], _ => Nat.le_refl _
  | g :: rest, st =>
    Nat.le_trans (processGrant_synced_le opts fid st g)
      (foldl_processGrant_synced_le opts fid rest (processGrant opts fid st g))

theorem foldl_processGrant_skipped_le (opts : SyncOptions) (fid : String) :
    ∀ (page : List GrantData) (st : SyncState),
      st.skipped ≤ (page.foldl (processGrant opts fid) st).skipped
  | [], _ => Nat.le_refl _
  | g :: rest, st =>
    Nat.le_trans (processGrant_skipped_le opts fid st g)
      (foldl_processGrant_skipped_le opts fid rest (processGrant opts fid st g))

theorem foldl_processGrant_orgUpdates (opts : SyncOptions) (fid : String) :
    ∀ (page : List GrantData) (st : SyncState),
      (page.foldl (processGrant opts fid) st).orgUpdates = st.orgUpdates
  | [], _ => rfl
  | g :: rest, st => by
    rw [List.foldl_cons, foldl_processGrant_orgUpdates opts fid rest]
    unfold processGrant
    split
    · rfl
    · split
      · rfl
      · split
        · rfl
        · rfl

theorem processFunder_synced_le (env : SyncEnv) (opts : SyncOptions)
    (st : SyncState) (f : Organisation) :
    st.synced ≤ (processFunder env opts st f).synced := by
  unfold processFunder
  split
  · exact Nat.le_refl _
  · split
    · exact Nat.le_refl _
    · split
      · exact foldl_processGrant_synced_le opts f.org_id _ st
      · exact foldl_processGrant_synced_le opts f.org_id _ st

theorem processFunder_skipped_le (env : SyncEnv) (opts : SyncOptions)
    (st : SyncState) (f : Organisation) :
    st.skipped ≤ (processFunder env opts st f).skipped := by
  unfold processFunder
  split
  · exact Nat.le_refl _
  · split
    · exact Nat.le_refl _
    · split
      · exact foldl_processGrant_skipped_le opts f.org_id _ st
      · exact foldl_processGrant_skipped_le opts f.org_id _ st

theorem foldl_processFunder_synced_le (env : SyncEnv) (opts : SyncOptions) :
    ∀ (funders : List Organisation) (st : SyncState),
      st.synced ≤ (funders.foldl (processFunder env opts) st).synced
  | [], _ => Nat.le_refl _
  | f :: rest, st =>
    Nat.le_trans (processFunder_synced_le env opts st f)
      (foldl_processFunder_synced_le env opts rest (processFunder env opts st f))

theorem isOldGrant_eq {opts : SyncOptions} {D : Int}
    (hinc : opts.incremental = true) (hD : opts.lastSyncDate = some D)
    (g : GrantData) : isOldGrant opts g = oldGrant D g := by
  unfold isOldGrant oldGrant
  rw [hinc, hD]
  cases g.awardDate <;> simp

theorem processGrant_upserts_not_old {opts : SyncOptions} {D : Int}
    (hinc : opts.incremental = true) (hD : opts.lastSyncDate = some D)
    (fid : String) (st : SyncState) (g : GrantData)
    (hst : ∀ r ∈ st.upserts, ∀ d, r.award_date = some d → D ≤ d) :
    ∀ r ∈ (processGrant opts fid st g).upserts,
      ∀ d, r.award_date = some d → D ≤ d := by
  unfold processGrant
  by_cases hcap : st.synced ≥ opts.maxGrants
  · rw [if_pos hcap]
    exact hst
  · rw [if_neg hcap]
    by_cases hold : isOldGrant opts g = true
    · rw [if_pos hold]
      exact hst
    · rw [if_neg hold]
      split
      · exact hst
      · intro r hr d hd
        rcases List.mem_append.mp hr with hr | hr
        · exact hst r hr d hd
        · have hrow : r = toGrantRow fid g := List.mem_singleton.mp hr
          subst hrow
          rw [isOldGrant_eq hinc hD] at hold
          unfold toGrantRow at hd
          simp only at hd
          unfold oldGrant at hold
          rw [hd] at hold
          simp only [decide_eq_true_eq] at hold
          omega

theorem foldl_processGrant_upserts_not_old {opts : SyncOptions} {D : Int}
    (hinc : opts.incremental = true) (hD : opts.lastSyncDate = some D)
    (fid : String) :
    ∀ (page : List GrantData) (st : SyncState),
      (∀ r ∈ st.upserts, ∀ d, r.award_date = some d → D ≤ d) →
      ∀ r ∈ (page.foldl (processGrant opts fid) st).upserts,
        ∀ d, r.award_date = some d → D ≤ d
  | [], _, hst => hst
  | g :: rest, st, hst =>
    foldl_processGrant_upserts_not_old hinc hD fid rest _
      (processGrant_upserts_not_old hinc hD fid st g hst)

theorem processFunder_upserts_not_old {opts : SyncOptions} {D : Int}
    (hinc : opts.incremental = true) (hD : opts.lastSyncDate = some D)
    (env : SyncEnv) (st : SyncState) (f : Organisation)
    (hst : ∀ r ∈ st.upserts, ∀ d, r.award_date = some d → D ≤ d) :
    ∀ r ∈ (processFunder env opts st f).upserts,
      ∀ d, r.award_date = some d → D ≤ d := by
  unfold processFunder
  split
  · exact hst
  · split
    · exact hst
    · split
      · exact foldl_processGrant_upserts_not_old hinc hD f.org_id _ st hst
      · exact foldl_processGrant_upserts_not_old hinc hD f.org_id _ st hst

theorem foldl_processFunder_upserts_not_old {opts : SyncOptions} {D : Int}
    (hinc : opts.incremental = true) (hD : opts.lastSyncDate = some D)
    (env : SyncEnv) :
    ∀ (funders : List Organisation) (st : SyncState),
      (∀ r ∈ st.upserts, ∀ d, r.award_date = some d → D ≤ d) →
      ∀ r ∈ (funders.foldl (processFunder env opts) st).upserts,
        ∀ d, r.award_date = some d → D ≤ d
  | [], _, hst => hst
  | f :: rest, st, hst =>
    foldl_processFunder_upserts_not_old hinc hD env rest _
      (processFunder_upserts_not_old hinc hD env st f hst)

theorem foldl_processGrant_skipped_count {opts : SyncOptions} {D : Int}
    (hinc : opts.incremental = true) (hD : opts.lastSyncDate = some D)
    (fid : String) :
    ∀ (page : List GrantData) (st : SyncState),
      (page.foldl (processGrant opts fid) st).synced < opts.maxGrants →
      st.skipped + countOldPage D page
        ≤ (page.foldl (processGrant opts fid) st).skipped := by
  intro page
  induction page with
  | nil =>
    intro st hfin
    simp [countOldPage]
  | cons g rest ih =>
    intro st hfin
    rw [List.foldl_cons] at hfin ⊢
    have hlt : st.synced < opts.maxGrants :=
      Nat.lt_of_le_of_lt
        (Nat.le_trans (processGrant_synced_le opts fid st g)
          (foldl_processGrant_synced_le opts fid rest _)) hfin
    have hstep := ih (processGrant opts fid st g) hfin
    by_cases hold : oldGrant D g = true
    · have hskip : (processGrant opts fid st g).skipped = st.skipped + 1 := by
        unfold processGrant
        rw [if_neg (Nat.not_le.mpr hlt), if_pos (by rw [isOldGrant_eq hinc hD]; exact hold)]
      have hcount : countOldPage D (g :: rest) = countOldPage D rest + 1 := by
        unfold countOldPage
        rw [List.filter_cons_of_pos hold]
        simp [Nat.add_comm]
      omega
    · have hskip : st.skipped ≤ (processGrant opts fid st g).skipped :=
        processGrant_skipped_le opts fid st g
      have hcount : countOldPage D (g :: rest) = countOldPage D rest := by
        unfold countOldPage
        rw [List.filter_cons_of_neg (by simpa using hold)]
      omega

theorem foldl_processFunder_skipped_count {opts : SyncOptions} {D : Int}
    (hinc : opts.incremental = true) (hD : opts.lastSyncDate = some D)
    (env : SyncEnv) :
    ∀ (funders : List Organisation) (st : SyncState),
      (funders.foldl (processFunder env opts) st).synced < opts.maxGrants →
      st.skipped + (funders.map (fun f => countOldPage D (pageOf env f))).sum
        ≤ (funders.foldl (processFunder env opts) st).skipped := by
  intro funders
  induction funders with
  | nil =>
    intro st hfin
    simp
  | cons f rest ih =>
    intro st hfin
    rw [List.foldl_cons] at hfin ⊢
    have hlt : st.synced < opts.maxGrants :=
      Nat.lt_of_le_of_lt
        (Nat.le_trans (processFunder_synced_le env opts st f)
          (foldl_processFunder_synced_le env opts rest _)) hfin
    have hstep := ih (processFunder env opts st f) hfin
    have hfunder : st.skipped + countOldPage D (pageOf env f)
        ≤ (processFunder env opts st f).skipped := by
      unfold processFunder pageOf
      rw [if_neg (Nat.not_le.mpr hlt)]
      cases henv : env.grantsMade f.org_id with
      | error e =>
        simp [countOldPage]
      | ok page =>
        have hinner : (page.foldl (processGrant opts f.org_id) st).synced
            < opts.maxGrants := by
          have : (processFunder env opts st f).synced
              ≤ (List.foldl (processFunder env opts) (processFunder env opts st f) rest).synced :=
            foldl_processFunder_synced_le env opts rest _
          have hple : (page.foldl (processGrant opts f.org_id) st).synced
              ≤ (processFunder env opts st f).synced := by
            unfold processFunder
            rw [if_neg (Nat.not_le.mpr hlt), henv]
            cases page with
            | nil => exact Nat.le_refl _
            | cons g0 tail => exact Nat.le_refl _
          omega
        have hcnt := foldl_processGrant_skipped_count hinc hD f.org_id page st hinner
        cases page with
        | nil => simp [countOldPage] at hcnt ⊢
        | cons g0 tail => simpa using hcnt
    simp only [List.map_cons, List.sum_cons]
    omega

/-- C3 (amended): in an incremental run with `lastSyncDate = D`, (a) no
grant whose award date predates `D` is ever upserted into the grants table;
and (b) whenever the `maxGrants` cap was not reached by the run, every
grant with `award_date < D` of every successfully fetched page is counted
in `grants_skipped`. As frozen, the counting half of the claim also covers
grants beyond the point where the cap is reached; those are neither counted
nor upserted — see the counterexample. -/
theorem syncGrantsForFunders_incremental_skip
    (env : SyncEnv) (opts : SyncOptions) (funders : List Organisation)
    (grants0 : List Grant) (D : Int)
    (hinc : opts.incremental = true) (hD : opts.lastSyncDate = some D) :
    (∀ r ∈ (syncGrantsForFunders env opts funders grants0).upserts,
      ∀ d, r.award_date = some d → D ≤ d)
    ∧ ((syncGrantsForFunders env opts funders grants0).synced < opts.maxGrants →
      (funders.map (fun f => countOldPage D (pageOf env f))).sum
        ≤ (syncGrantsForFunders env opts funders grants0).skipped) := by
  constructor
  · exact foldl_processFunder_upserts_not_old hinc hD env funders
      (initialSyncState grants0)
      (fun r hr => absurd hr (List.not_mem_nil r))
  · intro hfin
    have h := foldl_processFunder_skipped_count hinc hD env funders
      (initialSyncState grants0) hfin
    simpa [initialSyncState] using h

/-- Grant newer than the last sync date, first element of the test page. -/
def cxNewGrant : GrantData :=
  { grant_id := "g-new", title := none, description := none,
    amountAwarded := 10, currency := none, awardDate := some 200,
    funders := [], recipients := [] }

/-- Grant older than the last sync date, second element of the test page. -/
def cxOldGrant : GrantData :=
  { grant_id := "g-old", title := none, description := none,
    amountAwarded := 10, currency := none, awardDate := some 50,
    funders := [], recipients := [] }

/-- Funder organisation of the test environment. -/
def cxFunder : Organisation :=
  { org_id := "f1", name := "Funder One", is_funder := true,
    is_recipient := false, funder_stats := none, recipient_stats := none,
    last_grant_made_date := none }

/-- Test environment: funder `f1` has the two-grant page above. -/
def cxSyncEnv : SyncEnv :=
  ⟨fun o => if o == "f1" then .ok [cxNewGrant, cxOldGrant] else .ok []⟩

/-- Incremental options with `lastSyncDate = 100` and a cap of one grant. -/
def cxOpts : SyncOptions :=
  { maxOrgs := 50, maxGrants := 1, offset := 0, incremental := true,
    lastSyncDate := some 100 }

/-- Counterexample for C3 as frozen: with `maxGrants = 1`, the new grant is
synced first and the cap is reached, so the loop breaks before the old
grant (award date 50 < 100) of the same fetched page is examined —
`grants_skipped` stays 0 although the page contains a grant predating
`lastSyncDate`. -/
theorem syncGrantsForFunders_cap_uncounted :
    oldGrant 100 cxOldGrant = true
    ∧ cxOldGrant ∈ pageOf cxSyncEnv cxFunder
    ∧ (syncGrantsForFunders cxSyncEnv cxOpts [cxFunder] []).skipped = 0 :=
  ⟨by decide, by decide, by decide⟩

/-- Incremental options without a binding cap. -/
def wOpts3 : SyncOptions :=
  { maxOrgs := 50, maxGrants := 500, offset := 0, incremental := true,
    lastSyncDate := some 100 }

/-- Witness for C3: with the cap not reached, the old grant of the fetched
page is counted in `grants_skipped`. -/
theorem syncGrantsForFunders_incremental_skip_witness :
    ([cxFunder].map (fun f => countOldPage 100 (pageOf cxSyncEnv f))).sum
      ≤ (syncGrantsForFunders cxSyncEnv wOpts3 [cxFunder] []).skipped :=
  (syncGrantsForFunders_incremental_skip cxSyncEnv wOpts3 [cxFunder] [] 100
    rfl rfl).2 (by decide)

theorem processGrant_orgUpdates (opts : SyncOptions) (fid : String)
    (st : SyncState) (g : GrantData) :
    (processGrant opts fid st g).orgUpdates = st.orgUpdates := by
  unfold processGrant
  split
  · rfl
  · split
    · rfl
    · split
      · rfl
      · rfl

theorem foldl_processFunder_orgUpdates_inv (env : SyncEnv) (opts : SyncOptions) :
    ∀ (funders : List Organisation) (st : SyncState),
      (∀ u ∈ st.orgUpdates,
        ∃ g0 rest, env.grantsMade u.1 = .ok (g0 :: rest) ∧ u.2 = g0.awardDate) →
      ∀ u ∈ (funders.foldl (processFunder env opts) st).orgUpdates,
        ∃ g0 rest, env.grantsMade u.1 = .ok (g0 :: rest) ∧ u.2 = g0.awardDate := by
  intro funders
  induction funders with
  | nil => intro st hst; exact hst
  | cons f rest ih =>
    intro st hst
    rw [List.foldl_cons]
    refine ih (processFunder env opts st f) ?_
    unfold processFunder
    split
    · exact hst
    · split
      · exact hst
      · next page henv =>
        cases page with
        | nil => simpa [foldl_processGrant_orgUpdates] using hst
        | cons g0 tail =>
          intro u hu
          simp only [foldl_processGrant_orgUpdates] at hu
          rcases List.mem_append.mp hu with hu | hu
          · exact hst u hu
          · have hu' := List.mem_singleton.mp hu
            subst hu'
            exact ⟨g0, tail, henv, rfl⟩

/-- C5 (amended): whenever a funder is reached before the cap and its page
fetch succeeds with a non-empty page, the funder organisation's
`last_grant_made_date` is updated to the award date of the FIRST grant of
the page (`results[0].data.awardDate`); and every update recorded by a
whole run carries the first-grant award date of the updated funder's page.
The code does not compute the maximum award date of the page — see the
counterexample. -/
theorem syncGrantsForFunders_last_grant_update
    (env : SyncEnv) (opts : SyncOptions) (funders : List Organisation)
    (grants0 : List Grant) :
    (∀ u ∈ (syncGrantsForFunders env opts funders grants0).orgUpdates,
      ∃ g0 rest, env.grantsMade u.1 = .ok (g0 :: rest) ∧ u.2 = g0.awardDate)
    ∧ (∀ (st : SyncState) (f : Organisation) (g0 : GrantData)
        (rest : List GrantData),
      st.synced < opts.maxGrants →
      env.grantsMade f.org_id = .ok (g0 :: rest) →
      (processFunder env opts st f).orgUpdates
        = st.orgUpdates ++ [(f.org_id, g0.awardDate)]) := by
  constructor
  · exact foldl_processFunder_orgUpdates_inv env opts funders
      (initialSyncState grants0)
      (fun u hu => absurd hu (List.not_mem_nil u))
  · intro st f g0 rest hlt henv
    unfold processFunder
    rw [if_neg (Nat.not_le.mpr hlt), henv]
    simp [foldl_processGrant_orgUpdates, processGrant_orgUpdates]

/-- First grant of the page of the C5 counterexample: award date 100. -/
def cx5First : GrantData :=
  { grant_id := "g1", title := none, description := none,
    amountAwarded := 10, currency := none, awardDate := some 100,
    funders := [], recipients := [] }

/-- Second grant of the page of the C5 counterexample: award date 200, the
most recent grant of the page. -/
def cx5Second : GrantData :=
  { grant_id := "g2", title := none, description := none,
    amountAwarded := 10, currency := none, awardDate := some 200,
    funders := [], recipients := [] }

/-- Environment of the C5 counterexample: a page whose first grant is not
its most recent one. -/
def cx5Env : SyncEnv :=
  ⟨fun o => if o == "f1" then .ok [cx5First, cx5Second] else .ok []⟩

/-- Full-sync options without a binding cap. -/
def cx5Opts : SyncOptions :=
  { maxOrgs := 50, maxGrants := 500, offset := 0, incremental := false,
    lastSyncDate := none }

/-- Counterexample for C5 as frozen: the page holds award dates
`[100, 200]`, whose maximum is 200, yet `last_grant_made_date` is updated
to 100 — the code takes `results[0].data.awardDate`, not the maximum of the
page. -/
theorem syncGrantsForFunders_first_not_max :
    (syncGrantsForFunders cx5Env cx5Opts [cxFunder] []).orgUpdates
      = [("f1", some 100)]
    ∧ ((pageOf cx5Env cxFunder).filterMap (fun g => g.awardDate)).max?
      = some 200
    ∧ some (100 : Int) ≠ some 200 :=
  ⟨by decide, by decide, by decide⟩

/-- Witness for C5: the update appended for the funder is the first grant's
award date. -/
theorem syncGrantsForFunders_last_grant_update_witness :
    (processFunder cx5Env cx5Opts (initialSyncState []) cxFunder).orgUpdates
      = [("f1", some 100)] :=
  (syncGrantsForFunders_last_grant_update cx5Env cx5Opts [cxFunder] []).2
    (initialSyncState []) cxFunder cx5First [cx5Second] (by decide) rfl

/-! ### The matching pipeline (`matchFunders`) -/

/-- Outcome of the scoring-service call, as seen by steps 6–7 of
`matchFunders`: the call can throw, return no text block, or return text
whose JSON decoding (after optional code-fence stripping) succeeds or
fails. -/
inductive ScoringOutcome where
  | noText : ScoringOutcome
  | text (decoded : Option (List MatchResponseItem)) : ScoringOutcome

/-- External collaborators of one `matchFunders` call: the funder query,
the per-funder grants-sample queries, the cache lookup (keyed by charity
number and cache key), the scoring-service call, and the cache write. -/
structure MatchEnv where
  funders : Except String (List Organisation)
  grantsFor : String → Except String (List Grant)
  cacheRead : Int → String → Except String (List MatchCacheEntry)
  scoring : Except String ScoringOutcome
  cacheWrite : Except String Unit

/-- Observable side effects of a `matchFunders` call, in program order. -/
inductive Effect where
  | queriedFunders
  | readCache
  | fetchedGrants
  | builtPrompt
  | calledScoring
  | wroteCache
deriving DecidableEq, Repr

/-- A funder together with its fetched grants sample
(`FunderWithGrants` in `matching.ts`). -/
structure FunderWithGrants where
  funder : Organisation
  grants : List Grant
deriving DecidableEq, Repr

/-- Step 4 of `matchFunders`: pair every funder with its up-to-10 most
recent grants; a per-funder fetch error degrades to an empty sample. -/
def fwgOf (env : MatchEnv) (funders : List Organisation) : List FunderWithGrants :=
  funders.map (fun f =>
    { funder := f
      grants :=
        match env.grantsFor f.org_id with
        | .ok gs => gs
        | .error _ => [] })

/-- Resolution of one response item against the queried funder set: the
mapping step inside `parseMatchingResponse`, failing (`none`) when
`funder_org_id` matches no queried funder. -/
def resolveItem (fwg : List FunderWithGrants) (m : MatchResponseItem) :
    Option FunderMatch :=
  match fwg.find? (fun f => f.funder.org_id == m.funder_org_id) with
  | none => none
  | some fd => some
    { funder :=
      { org_id := fd.funder.org_id
        name := fd.funder.name
        is_funder := true
        is_recipient := fd.funder.is_recipient
        funder_stats := fd.funder.funder_stats
        recipient_stats := fd.funder.recipient_stats
        last_grant_made_date := none }
      match_score := m.match_score
      score_breakdown := m.score_breakdown
      reasoning := m.reasoning
      similar_charities_funded := m.similar_charities_funded.getD [] }

/-- Embedding of `parseMatchingResponse`: a JSON-decode failure, or any
item referencing an unknown funder, makes the whole parse throw; the
`try/catch` converts every such failure into the single parse error. -/
def parseMatchingResponse (decoded : Option (List MatchResponseItem))
    (fwg : List FunderWithGrants) : Except String (List FunderMatch) :=
  match decoded with
  | none => .error "Failed to parse AI matching response"
  | some items =>
    match items.mapM (resolveItem fwg) with
    | none => .error "Failed to parse AI matching response"
    | some l => .ok l

/-- The comparator `(a, b) => b.match_score - a.match_score` of step 8:
descending by score, ties left to the stable sort. -/
def scoreLE (a b : FunderMatch) : Bool :=
  decide (b.match_score ≤ a.match_score)

/-- Embedding of `matchFunders` over an explicit environment. The result is
paired with the trace of side effects so that control-flow claims (no
prompt built, no scoring call) are statable. Step numbering follows the
source: funder query, empty check, cache key, cache lookup (skipped under
`forceRefresh`), grant samples, prompt, scoring call, parse, stable sort
and top-20 truncation, best-effort cache write. `preTraceOf` lists the
effects up to the cache lookup. -/
def preTraceOf (forceRefresh : Bool) : List Effect :=
  [Effect.queriedFunders] ++ (if forceRefresh then [] else [Effect.readCache])

/-- Effects of a call that went all the way to the scoring service. -/
def fullTraceOf (forceRefresh : Bool) : List Effect :=
  preTraceOf forceRefresh
    ++ [Effect.fetchedGrants, Effect.builtPrompt, Effect.calledScoring]

/-- Embedding of `matchFunders` proper. -/
def matchFunders (digest : String → String) (env : MatchEnv)
    (p : CharityProfile) (forceRefresh : Bool) :
    Except String (List FunderMatch) × List Effect :=
  match env.funders with
  | .error e => (.error ("Failed to fetch funders: " ++ e), [.queriedFunders])
  | .ok funders =>
    if funders.isEmpty then
      (.error "No funders found in database", [.queriedFunders])
    else
      match (if forceRefresh then { hit := false, «matches» := none }
          else checkCache (env.cacheRead p.reg_charity_number
            (generateCacheKey digest p (funders.map (fun f => f.org_id))))) with
      | { hit := true, «matches» := some m } => (.ok m, preTraceOf forceRefresh)
      | _ =>
        match env.scoring with
        | .error e => (.error e, fullTraceOf forceRefresh)
        | .ok .noText =>
          (.error "No text content in AI response", fullTraceOf forceRefresh)
        | .ok (.text decoded) =>
          match parseMatchingResponse decoded (fwgOf env funders) with
          | .error e => (.error e, fullTraceOf forceRefresh)
          | .ok ms =>
            (.ok ((sortB scoreLE ms).take 20),
             fullTraceOf forceRefresh ++ [Effect.wroteCache])

/-- C9: with an empty funder population, `matchFunders` fails with the
no-funders error; no prompt is built and no scoring call is made. -/
theorem matchFunders_no_funders (digest : String → String) (env : MatchEnv)
    (p : CharityProfile) (forceRefresh : Bool)
    (hf : env.funders = .ok []) :
    matchFunders digest env p forceRefresh
      = (.error "No funders found in database", [.queriedFunders])
    ∧ Effect.builtPrompt ∉ (matchFunders digest env p forceRefresh).2
    ∧ Effect.calledScoring ∉ (matchFunders digest env p forceRefresh).2 := by
  refine ⟨?_, ?_, ?_⟩ <;> simp [matchFunders, hf]

/-- Charity profile used by the matching-pipeline witnesses. -/
def mProf : CharityProfile :=
  { reg_charity_number := 99
    charity_name := "Matching Test"
    latest_income := none
    latest_expenditure := none
    who_what_where := none
    CharityAoORegion := none }

/-- Environment with an empty funder population. -/
def wEnv9 : MatchEnv :=
  { funders := .ok []
    grantsFor := fun _ => .ok []
    cacheRead := fun _ _ => .ok []
    scoring := .ok (.text none)
    cacheWrite := .ok () }

/-- Witness for C9. -/
theorem matchFunders_no_funders_witness :
    matchFunders (fun s => s) wEnv9 mProf false
      = (.error "No funders found in database", [.queriedFunders])
    ∧ Effect.builtPrompt ∉ (matchFunders (fun s => s) wEnv9 mProf false).2
    ∧ Effect.calledScoring ∉ (matchFunders (fun s => s) wEnv9 mProf false).2 :=
  matchFunders_no_funders (fun s => s) wEnv9 mProf false rfl

theorem matchFunders_congr (digest : String → String) (p : CharityProfile)
    (forceRefresh : Bool) (env₁ env₂ : MatchEnv)
    (hf : env₁.funders = env₂.funders)
    (hg : env₁.grantsFor = env₂.grantsFor)
    (hs : env₁.scoring = env₂.scoring)
    (hc : ∀ cn k, checkCache (env₁.cacheRead cn k)
      = checkCache (env₂.cacheRead cn k)) :
    matchFunders digest env₁ p forceRefresh
      = matchFunders digest env₂ p forceRefresh := by
  unfold matchFunders fwgOf
  rw [hf, hg]
  simp only [hs, hc]

/-- C8: cache-store failures never change the outcome of a `matchFunders`
call: a cache-read error behaves exactly like a cache miss, and the result
does not depend on the cache-write outcome at all — a call that would
otherwise succeed still returns its ranked list. -/
theorem matchFunders_cache_failures_harmless (digest : String → String)
    (env : MatchEnv) (p : CharityProfile) (forceRefresh : Bool)
    (e w : String) :
    matchFunders digest
        { env with cacheRead := fun _ _ => .error e, cacheWrite := .error w }
        p forceRefresh
      = matchFunders digest
        { env with cacheRead := fun _ _ => .ok [], cacheWrite := .ok () }
        p forceRefresh
    ∧ ∀ w' : Except String Unit,
      matchFunders digest { env with cacheWrite := w' } p forceRefresh
        = matchFunders digest env p forceRefresh := by
  constructor
  · exact matchFunders_congr digest p forceRefresh _ _ rfl rfl rfl
      (fun cn k => rfl)
  · intro w'
    exact matchFunders_congr digest p forceRefresh _ _ rfl rfl rfl
      (fun cn k => rfl)

theorem mapM_option_eq_none {α β : Type} (f : α → Option β) :
    ∀ (l : List α) (a : α), a ∈ l → f a = none → l.mapM f = none := by
  intro l
  induction l with
  | nil => intro a ha; exact absurd ha (List.not_mem_nil a)
  | cons x xs ih =>
    intro a ha hfa
    rw [List.mapM_cons]
    rcases List.mem_cons.mp ha with rfl | ha
    · rw [hfa]
      rfl
    · cases hfx : f x with
      | none => rfl
      | some b => rw [ih a ha hfa]; rfl

theorem mapM_option_length {α β : Type} (f : α → Option β) :
    ∀ (l : List α) (out : List β), l.mapM f = some out → out.length = l.length := by
  intro l
  induction l with
  | nil =>
    intro out h
    rw [List.mapM_nil] at h
    cases h
    rfl
  | cons x xs ih =>
    intro out h
    rw [List.mapM_cons] at h
    cases hfx : f x with
    | none => rw [hfx] at h; simp at h
    | some b =>
      rw [hfx] at h
      cases hm : xs.mapM f with
      | none => rw [hm] at h; simp at h
      | some bs =>
        rw [hm] at h
        simp at h
        rw [← h]
        simp [ih bs hm]

theorem parse_unknown_error (items : List MatchResponseItem)
    (fwg : List FunderWithGrants)
    (h : ∃ m ∈ items, ∀ f ∈ fwg, f.funder.org_id ≠ m.funder_org_id) :
    parseMatchingResponse (some items) fwg
      = .error "Failed to parse AI matching response" := by
  obtain ⟨m, hm, hunk⟩ := h
  have hres : resolveItem fwg m = none := by
    unfold resolveItem
    rw [List.find?_eq_none.mpr ?_]
    intro f hf
    simp only [beq_iff_eq]
    exact hunk f hf
  simp only [parseMatchingResponse]
  rw [mapM_option_eq_none (resolveItem fwg) items m hm hres]

theorem parse_ok_length (items : List MatchResponseItem)
    (fwg : List FunderWithGrants) (l : List FunderMatch)
    (h : parseMatchingResponse (some items) fwg = .ok l) :
    l.length = items.length := by
  simp only [parseMatchingResponse] at h
  cases hm : items.mapM (resolveItem fwg) with
  | none => rw [hm] at h; cases h
  | some out =>
    rw [hm] at h
    cases h
    exact mapM_option_length (resolveItem fwg) items l hm

/-- C6: an element of the scoring response whose `funder_org_id` matches no
queried funder fails the whole parse — `parseMatchingResponse` throws its
parse error, and a `matchFunders` call reaching the parse step returns that
error; a successful parse returns exactly one match per response item, so
unknown elements are never silently dropped. -/
theorem matchFunders_parse_completeness :
    (∀ (items : List MatchResponseItem) (fwg : List FunderWithGrants),
      (∃ m ∈ items, ∀ f ∈ fwg, f.funder.org_id ≠ m.funder_org_id) →
      parseMatchingResponse (some items) fwg
        = .error "Failed to parse AI matching response")
    ∧ (∀ (items : List MatchResponseItem) (fwg : List FunderWithGrants)
        (l : List FunderMatch),
      parseMatchingResponse (some items) fwg = .ok l →
      l.length = items.length)
    ∧ (∀ (digest : String → String) (env : MatchEnv) (p : CharityProfile)
        (funders : List Organisation) (items : List MatchResponseItem),
      env.funders = .ok funders → funders ≠ [] →
      env.scoring = .ok (.text (some items)) →
      (∃ m ∈ items, ∀ f ∈ funders, f.org_id ≠ m.funder_org_id) →
      (matchFunders digest env p true).1
        = .error "Failed to parse AI matching response") := by
  refine ⟨parse_unknown_error, parse_ok_length, ?_⟩
  intro digest env p funders items hfund hne hscoring hunk
  have hparse : parseMatchingResponse (some items) (fwgOf env funders)
      = .error "Failed to parse AI matching response" := by
    apply parse_unknown_error
    obtain ⟨m, hm, hunk'⟩ := hunk
    refine ⟨m, hm, ?_⟩
    intro fw hfw
    obtain ⟨f, hf, rfl⟩ := List.mem_map.mp hfw
    exact hunk' f hf
  simp only [matchFunders, hfund, hscoring, hparse]
  rw [if_neg (by simp only [List.isEmpty_iff]; exact hne)]
  simp

/-- Response item referencing a funder that was never queried. -/
def badItem : MatchResponseItem :=
  { funder_org_id := "unknown-funder", match_score := 50,
    score_breakdown := ⟨50, 50, 50, 50, 50⟩, reasoning := "r",
    similar_charities_funded := none }

/-- Environment whose scoring response contains only `badItem`. -/
def wEnv6 : MatchEnv :=
  { funders := .ok [cxFunder]
    grantsFor := fun _ => .ok []
    cacheRead := fun _ _ => .ok []
    scoring := .ok (.text (some [badItem]))
    cacheWrite := .ok () }

/-- Witness for C6: the whole call fails with the parse error. -/
theorem matchFunders_parse_completeness_witness :
    (matchFunders (fun s => s) wEnv6 mProf true).1
      = .error "Failed to parse AI matching response" :=
  matchFunders_parse_completeness.2.2 (fun s => s) wEnv6 mProf [cxFunder]
    [badItem] rfl (by decide) rfl (by decide)

theorem insertB_split {α : Type} (le : α → α → Bool) (x : α) :
    ∀ l : List α, ∃ A B, insertB le x l = A ++ x :: B ∧ l = A ++ B
      ∧ ∀ y ∈ A, le x y = false
  | [] => ⟨[], [], rfl, rfl, by simp⟩
  | y :: ys => by
    by_cases h : le x y = true
    · exact ⟨[], y :: ys, by simp [insertB, h], rfl, by simp⟩
    · obtain ⟨A, B, h1, h2, h3⟩ := insertB_split le x ys
      refine ⟨y :: A, B, ?_, ?_, ?_⟩
      · simp [insertB, h, h1]
      · simp [h2]
      · intro z hz
        rcases List.mem_cons.mp hz with rfl | hz
        · simpa using h
        · exact h3 z hz

theorem sortB_filter_key {α : Type} (key : α → Int) (s : Int) :
    ∀ l : List α,
      (sortB (fun a b => decide (key b ≤ key a)) l).filter
          (fun x => key x == s)
        = l.filter (fun x => key x == s)
  | [] => rfl
  | x :: xs => by
    obtain ⟨A, B, h1, h2, h3⟩ :=
      insertB_split (fun a b => decide (key b ≤ key a)) x
        (sortB (fun a b => decide (key b ≤ key a)) xs)
    have ihx := sortB_filter_key key s xs
    simp only [sortB, h1, List.filter_append, List.filter_cons]
    rw [h2, List.filter_append] at ihx
    by_cases hx : (key x == s) = true
    · have hA : A.filter (fun y => key y == s) = [] := by
        rw [List.filter_eq_nil_iff]
        intro y hy
        have hlt := h3 y hy
        simp only [decide_eq_false_iff_not, not_le] at hlt
        simp only [beq_iff_eq] at hx ⊢
        intro hys
        omega
      rw [if_pos hx, if_pos hx, hA, List.nil_append]
      rw [hA, List.nil_append] at ihx
      rw [ihx]
    · rw [if_neg hx, if_neg hx]
      exact ihx

theorem filter_take_exists {α : Type} (p : α → Bool) :
    ∀ (l : List α) (k : Nat), ∃ n, (l.take k).filter p = (l.filter p).take n
  | _, 0 => ⟨0, by simp⟩
  | [], _ => ⟨0, by simp⟩
  | x :: xs, k + 1 => by
    obtain ⟨n, hn⟩ := filter_take_exists p xs k
    by_cases hx : p x = true
    · exact ⟨n + 1, by simp [hx, hn]⟩
    · refine ⟨n, ?_⟩
      simp only [List.take_succ_cons, List.filter_cons, hx]
      simpa [hx] using hn

theorem scoreLE_trans (a b c : FunderMatch) (h₁ : scoreLE a b = true)
    (h₂ : scoreLE b c = true) : scoreLE a c = true := by
  simp only [scoreLE, decide_eq_true_eq] at *
  omega

theorem scoreLE_total (a b : FunderMatch) : (scoreLE a b || scoreLE b a) = true := by
  simp only [scoreLE, Bool.or_eq_true, decide_eq_true_eq]
  omega

theorem sortB_scoreLE_filter (s : Int) (ms : List FunderMatch) :
    (sortB scoreLE ms).filter (fun m => m.match_score == s)
      = ms.filter (fun m => m.match_score == s) :=
  sortB_filter_key (fun m : FunderMatch => m.match_score) s ms

/-- C7: when the call does not return a cached list (forced refresh or a
cache miss), the returned list is the parse output sorted descending by
`match_score` and truncated to 20: it is sorted, has at most 20 elements,
and for every score value its elements form a prefix of the parse output's
elements of that score in their original (scoring-service) order — the sort
is stable with no secondary key. -/
theorem matchFunders_sorted_top20 (digest : String → String) (env : MatchEnv)
    (p : CharityProfile) (forceRefresh : Bool)
    (hnohit : forceRefresh = true
      ∨ ∀ cn k, (checkCache (env.cacheRead cn k)).hit = false)
    (l : List FunderMatch)
    (hok : (matchFunders digest env p forceRefresh).1 = .ok l) :
    List.Pairwise (fun a b => b.match_score ≤ a.match_score) l
    ∧ l.length ≤ 20
    ∧ ∃ (funders : List Organisation) (items : List MatchResponseItem)
        (ms : List FunderMatch),
      env.funders = .ok funders
      ∧ env.scoring = .ok (.text (some items))
      ∧ parseMatchingResponse (some items) (fwgOf env funders) = .ok ms
      ∧ l = (sortB scoreLE ms).take 20
      ∧ ∀ s : Int, ∃ n,
          l.filter (fun m => m.match_score == s)
            = (ms.filter (fun m => m.match_score == s)).take n := by
  have hmain : ∃ (funders : List Organisation) (items : List MatchResponseItem)
      (ms : List FunderMatch),
      env.funders = .ok funders
      ∧ env.scoring = .ok (.text (some items))
      ∧ parseMatchingResponse (some items) (fwgOf env funders) = .ok ms
      ∧ l = (sortB scoreLE ms).take 20 := by
    unfold matchFunders at hok
    split at hok
    · cases hok
    · next funders hfund =>
      split at hok
      · cases hok
      · split at hok
        · next m heq =>
          exfalso
          rcases hnohit with hfr | hmiss
          · rw [if_pos hfr] at heq
            simp at heq
          · by_cases hfr : forceRefresh = true
            · rw [if_pos hfr] at heq
              simp at heq
            · rw [if_neg hfr] at heq
              have hmiss' := hmiss p.reg_charity_number
                (generateCacheKey digest p (funders.map (fun f => f.org_id)))
              rw [heq] at hmiss'
              simp at hmiss'
        · split at hok
          · cases hok
          · cases hok
          · next decoded hscoring =>
            split at hok
            · cases hok
            · next ms hparse =>
              simp only at hok
              cases decoded with
              | none =>
                rw [show parseMatchingResponse none (fwgOf env funders)
                    = .error "Failed to parse AI matching response" from rfl] at hparse
                cases hparse
              | some items =>
                exact ⟨funders, items, ms, hfund, hscoring, hparse, (Except.ok.inj hok).symm⟩
  obtain ⟨funders, items, ms, hfund, hscoring, hparse, hl⟩ := hmain
  refine ⟨?_, ?_, funders, items, ms, hfund, hscoring, hparse, hl, ?_⟩
  · have hs := sortB_sorted scoreLE_trans scoreLE_total ms
    have hs' := hs.sublist (List.take_sublist 20 _)
    rw [hl]
    exact hs'.imp (fun h => by simpa [scoreLE] using h)
  · rw [hl, List.length_take]
    exact Nat.min_le_left _ _
  · intro s
    obtain ⟨n, hn⟩ := filter_take_exists (fun m => m.match_score == s)
      (sortB scoreLE ms) 20
    refine ⟨n, ?_⟩
    rw [hl, hn, sortB_scoreLE_filter]

/-- Funder organisations of the C7 witness environment. -/
def orgA : Organisation :=
  { org_id := "fA", name := "Funder A", is_funder := true,
    is_recipient := false, funder_stats := none, recipient_stats := none,
    last_grant_made_date := none }

/-- Second funder of the C7 witness environment. -/
def orgB : Organisation :=
  { org_id := "fB", name := "Funder B", is_funder := true,
    is_recipient := false, funder_stats := none, recipient_stats := none,
    last_grant_made_date := none }

/-- Third funder of the C7 witness environment. -/
def orgC : Organisation :=
  { org_id := "fC", name := "Funder C", is_funder := true,
    is_recipient := false, funder_stats := none, recipient_stats := none,
    last_grant_made_date := none }

/-- Scoring-response items: two tied scores around a higher one, to
exercise the stable descending sort. -/
def wItems7 : List MatchResponseItem :=
  [{ funder_org_id := "fB", match_score := 50,
     score_breakdown := ⟨50, 50, 50, 50, 50⟩, reasoning := "first tied",
     similar_charities_funded := none },
   { funder_org_id := "fA", match_score := 80,
     score_breakdown := ⟨80, 80, 80, 80, 80⟩, reasoning := "top",
     similar_charities_funded := none },
   { funder_org_id := "fC", match_score := 50,
     score_breakdown := ⟨50, 50, 50, 50, 50⟩, reasoning := "second tied",
     similar_charities_funded := none }]

/-- Environment of the C7 witness. -/
def wEnv7 : MatchEnv :=
  { funders := .ok [orgA, orgB, orgC]
    grantsFor := fun _ => .ok []
    cacheRead := fun _ _ => .ok []
    scoring := .ok (.text (some wItems7))
    cacheWrite := .ok () }

/-- Ranked list `matchFunders` returns on `wEnv7`: the high score first,
then the two tied scores in their scoring-service order. -/
def wList7 : List FunderMatch :=
  [{ funder := orgA, match_score := 80,
     score_breakdown := ⟨80, 80, 80, 80, 80⟩,
     reasoning := "top", similar_charities_funded := [] },
   { funder := orgB, match_score := 50,
     score_breakdown := ⟨50, 50, 50, 50, 50⟩,
     reasoning := "first tied", similar_charities_funded := [] },
   { funder := orgC, match_score := 50,
     score_breakdown := ⟨50, 50, 50, 50, 50⟩,
     reasoning := "second tied", similar_charities_funded := [] }]

/-- Witness for C7: on the concrete environment the returned list is
sorted descending and within the 20-element bound. -/
theorem matchFunders_sorted_top20_witness :
    List.Pairwise (fun a b => b.match_score ≤ a.match_score) wList7
    ∧ wList7.length ≤ 20 :=
  ⟨(matchFunders_sorted_top20 (fun s => s) wEnv7 mProf true (Or.inl rfl)
      wList7 (by rfl)).1,
   (matchFunders_sorted_top20 (fun s => s) wEnv7 mProf true (Or.inl rfl)
      wList7 (by rfl)).2.1⟩

/-! ### The rate limiter of the 360Giving client

The `RateLimiter` class is concurrent, stateful code; it is embedded as a
small-step relation over an explicit state. The JavaScript event loop runs
the class's code in synchronous segments separated by its two `await`
points, so the state is the class state (`queue`, and `processing`
refined into the phase of the `process` coroutine) plus a clock and an
event log:

* `add(fn)` pushes the unit of work and calls `process()` synchronously:
  if `processing` was false the head unit starts immediately
  (`submit_idle`), otherwise the unit is only queued (`submit_busy`);
* `await fn()` settles at the unit's completion time (`finishRun`),
  resolving or rejecting only that unit's promise — the wrapping
  `try/catch` guarantees `process` itself never throws;
* the `setTimeout(RATE_LIMIT_DELAY)` wait ends 500 ms later
  (`finishDelay_empty` / `finishDelay_next`), where `processing` is
  cleared and, when the queue is non-empty, `process()` recurses and
  starts the next unit immediately.

Each unit of work `id` has a duration `dur id` and an outcome
`succeeds id`; submissions may occur at any time consistent with the
clock. -/

def RATE_LIMIT_DELAY : Nat := 500

/-- Phase of the `process` coroutine: `idle` is `processing = false`;
`running id f` is the segment awaiting `fn()` of unit `id`, which settles
at time `f`; `delaying u` is the segment awaiting the pacing timeout that
ends at time `u`. -/
inductive RLPhase where
  | idle
  | running (id : Nat) (finish : Nat)
  | delaying (u : Nat)
deriving DecidableEq, Repr

/-- Observable events: a unit is submitted, starts executing, or settles
(with its own outcome, delivered to its own submitter). -/
inductive REvent where
  | submitted (id : Nat) (t : Nat)
  | started (id : Nat) (t : Nat)
  | completed (id : Nat) (ok : Bool) (t : Nat)
deriving DecidableEq, Repr

/-- State of the rate limiter together with the clock and the event log. -/
structure RLState where
  time : Nat
  queue : List Nat
  phase : RLPhase
  events : List REvent
deriving Repr

/-- The pending wakeup of the event loop, if any: no submission can be
observed after the pending settle/timeout it would have to precede. -/
def wake : RLPhase → Option Nat
  | .idle => none
  | .running _ f => some f
  | .delaying u => some u

/-- One step of the rate limiter's event loop. -/
inductive RLStep (dur : Nat → Nat) (succeeds : Nat → Bool) :
    RLState → RLState → Prop where
  | submit_busy (s : RLState) (id t : Nat) :
      s.time ≤ t → (∀ w, wake s.phase = some w → t ≤ w) →
      s.phase ≠ .idle →
      RLStep dur succeeds s
        { time := t, queue := s.queue ++ [id], phase := s.phase,
          events := s.events ++ [.submitted id t] }
  | submit_idle (s : RLState) (id t h : Nat) (rest : List Nat) :
      s.time ≤ t → s.phase = .idle →
      s.queue ++ [id] = h :: rest →
      RLStep dur succeeds s
        { time := t, queue := rest, phase := .running h (t + dur h),
          events := s.events ++ [.submitted id t, .started h t] }
  | finishRun (s : RLState) (id f : Nat) :
      s.phase = .running id f →
      RLStep dur succeeds s
        { time := f, queue := s.queue,
          phase := .delaying (f + RATE_LIMIT_DELAY),
          events := s.events ++ [.completed id (succeeds id) f] }
  | finishDelay_empty (s : RLState) (u : Nat) :
      s.phase = .delaying u → s.queue = [] →
      RLStep dur succeeds s
        { time := u, queue := [], phase := .idle, events := s.events }
  | finishDelay_next (s : RLState) (u h : Nat) (rest : List Nat) :
      s.phase = .delaying u → s.queue = h :: rest →
      RLStep dur succeeds s
        { time := u, queue := rest, phase := .running h (u + dur h),
          events := s.events ++ [.started h u] }

/-- Initial state: clock zero, empty queue, not processing. -/
def RLInit : RLState :=
  { time := 0, queue := [], phase := .idle, events := [] }

/-- States reachable from the initial state. -/
inductive RLReachable (dur : Nat → Nat) (succeeds : Nat → Bool) :
    RLState → Prop where
  | init : RLReachable dur succeeds RLInit
  | step {s s' : RLState} : RLReachable dur succeeds s →
      RLStep dur succeeds s s' → RLReachable dur succeeds s'

/-- Times of the `started` events, in log order. -/
def startTimes (es : List REvent) : List Nat :=
  es.filterMap (fun e => match e with | .started _ t => some t | _ => none)

/-- Ids of the `started` events, in log order. -/
def startedIds (es : List REvent) : List Nat :=
  es.filterMap (fun e => match e with | .started i _ => some i | _ => none)

/-- Ids of the `submitted` events, in log order. -/
def submittedIds (es : List REvent) : List Nat :=
  es.filterMap (fun e => match e with | .submitted i _ => some i | _ => none)

/-- Ids of the `completed` events, in log order. -/
def completedIds (es : List REvent) : List Nat :=
  es.filterMap (fun e => match e with | .completed i _ _ => some i | _ => none)

/-- The unit currently in flight, as a list of length at most one. -/
def inflight : RLPhase → List Nat
  | .running id _ => [id]
  | _ => []

/-- Relation between the last recorded start time and the phase, strong
enough to push the 500 ms spacing through every step. -/
def lastStartOK (s : RLState) : Prop :=
  match s.phase with
  | .idle => ∀ t0, (startTimes s.events).getLast? = some t0 →
      t0 + RATE_LIMIT_DELAY ≤ s.time
  | .running _ f => ∀ t0, (startTimes s.events).getLast? = some t0 → t0 ≤ f
  | .delaying u => ∀ t0, (startTimes s.events).getLast? = some t0 →
      t0 + RATE_LIMIT_DELAY ≤ u

/-- Inductive invariant of the rate limiter. -/
structure RLInv (dur : Nat → Nat) (succeeds : Nat → Bool) (s : RLState) :
    Prop where
  idle_queue : s.phase = .idle → s.queue = []
  wake_ge : ∀ w, wake s.phase = some w → s.time ≤ w
  fifo : submittedIds s.events
    = completedIds s.events ++ inflight s.phase ++ s.queue
  started_eq : startedIds s.events = completedIds s.events ++ inflight s.phase
  chain : List.Chain' (fun a b => a + RATE_LIMIT_DELAY ≤ b)
    (startTimes s.events)
  last_start : lastStartOK s
  outcomes : ∀ i b t, REvent.completed i b t ∈ s.events → b = succeeds i

@[simp] theorem startTimes_append (l₁ l₂ : List REvent) :
    startTimes (l₁ ++ l₂) = startTimes l₁ ++ startTimes l₂ :=
  List.filterMap_append l₁ l₂ _

@[simp] theorem startedIds_append (l₁ l₂ : List REvent) :
    startedIds (l₁ ++ l₂) = startedIds l₁ ++ startedIds l₂ :=
  List.filterMap_append l₁ l₂ _

@[simp] theorem submittedIds_append (l₁ l₂ : List REvent) :
    submittedIds (l₁ ++ l₂) = submittedIds l₁ ++ submittedIds l₂ :=
  List.filterMap_append l₁ l₂ _

@[simp] theorem completedIds_append (l₁ l₂ : List REvent) :
    completedIds (l₁ ++ l₂) = completedIds l₁ ++ completedIds l₂ :=
  List.filterMap_append l₁ l₂ _

@[simp] theorem startTimes_submitted (i t : Nat) :
    startTimes [REvent.submitted i t] = [] := rfl

@[simp] theorem startTimes_started (i t : Nat) :
    startTimes [REvent.started i t] = [t] := rfl

@[simp] theorem startTimes_completed (i : Nat) (b : Bool) (t : Nat) :
    startTimes [REvent.completed i b t] = [] := rfl

@[simp] theorem startedIds_submitted (i t : Nat) :
    startedIds [REvent.submitted i t] = [] := rfl

@[simp] theorem startedIds_started (i t : Nat) :
    startedIds [REvent.started i t] = [i] := rfl

@[simp] theorem startedIds_completed (i : Nat) (b : Bool) (t : Nat) :
    startedIds [REvent.completed i b t] = [] := rfl

@[simp] theorem submittedIds_submitted (i t : Nat) :
    submittedIds [REvent.submitted i t] = [i] := rfl

@[simp] theorem submittedIds_started (i t : Nat) :
    submittedIds [REvent.started i t] = [] := rfl

@[simp] theorem submittedIds_completed (i : Nat) (b : Bool) (t : Nat) :
    submittedIds [REvent.completed i b t] = [] := rfl

@[simp] theorem completedIds_submitted (i t : Nat) :
    completedIds [REvent.submitted i t] = [] := rfl

@[simp] theorem completedIds_started (i t : Nat) :
    completedIds [REvent.started i t] = [] := rfl

@[simp] theorem completedIds_completed (i : Nat) (b : Bool) (t : Nat) :
    completedIds [REvent.completed i b t] = [i] := rfl

theorem chain_concat {l : List Nat} {b : Nat}
    (hl : List.Chain' (fun a c => a + RATE_LIMIT_DELAY ≤ c) l)
    (hb : ∀ t0, l.getLast? = some t0 → t0 + RATE_LIMIT_DELAY ≤ b) :
    List.Chain' (fun a c => a + RATE_LIMIT_DELAY ≤ c) (l ++ [b]) := by
  rw [List.chain'_append]
  refine ⟨hl, List.chain'_singleton b, ?_⟩
  intro x hx y hy
  simp only [List.head?_cons, Option.mem_def, Option.some.injEq] at hy
  subst hy
  exact hb x hx

theorem RLInv_step {dur : Nat → Nat} {succeeds : Nat → Bool} {s s' : RLState}
    (hinv : RLInv dur succeeds s) (hstep : RLStep dur succeeds s s') :
    RLInv dur succeeds s' := by
  cases hstep with
  | submit_busy id t hts hwake hph =>
    refine ⟨?_, ?_, ?_, ?_, ?_, ?_, ?_⟩
    · intro h
      exact absurd h hph
    · exact hwake
    · simp only [submittedIds_append, completedIds_append,
        submittedIds_submitted, completedIds_submitted, List.append_nil]
      rw [hinv.fifo]
      simp [List.append_assoc]
    · simp only [startedIds_append, completedIds_append,
        startedIds_submitted, completedIds_submitted, List.append_nil]
      exact hinv.started_eq
    · simp only [startTimes_append, startTimes_submitted, List.append_nil]
      exact hinv.chain
    · have hls := hinv.last_start
      unfold lastStartOK at hls ⊢
      cases hp : s.phase with
      | idle => exact absurd hp hph
      | running id' f =>
        rw [hp] at hls
        simp only [startTimes_append, startTimes_submitted, List.append_nil]
        exact hls
      | delaying u =>
        rw [hp] at hls
        simp only [startTimes_append, startTimes_submitted, List.append_nil]
        exact hls
    · intro i b tt hmem
      rcases List.mem_append.mp hmem with hmem | hmem
      · exact hinv.outcomes i b tt hmem
      · simp at hmem
  | submit_idle id t h rest hts hph hq =>
    have hq0 : s.queue = [] := hinv.idle_queue hph
    rw [hq0, List.nil_append] at hq
    cases hq
    have hfifo := hinv.fifo
    have hstarted := hinv.started_eq
    rw [hq0, hph] at hfifo
    rw [hph] at hstarted
    simp only [inflight, List.append_nil] at hfifo hstarted
    refine ⟨?_, ?_, ?_, ?_, ?_, ?_, ?_⟩
    · intro hcon
      cases hcon
    · intro w hw
      simp only [wake, Option.some.injEq] at hw
      show t ≤ w
      omega
    · simp only [submittedIds_append, completedIds_append, inflight]
      rw [hfifo]
      simp [submittedIds, completedIds]
    · simp only [startedIds_append, completedIds_append, inflight]
      rw [hstarted]
      simp [startedIds, completedIds]
    · simp only [startTimes_append]
      have hls := hinv.last_start
      unfold lastStartOK at hls
      rw [hph] at hls
      have : startTimes [REvent.submitted id t, REvent.started id t]
          = [] ++ [t] := rfl
      rw [this, ← List.append_assoc, List.append_nil]
      refine chain_concat hinv.chain ?_
      intro t0 ht0
      have := hls t0 ht0
      omega
    · unfold lastStartOK
      simp only []
      intro t0 ht0
      have : startTimes (s.events ++ [REvent.submitted id t, REvent.started id t])
          = startTimes s.events ++ [t] := by
        simp only [startTimes_append]
        rfl
      rw [this, List.getLast?_concat] at ht0
      cases ht0
      exact Nat.le_add_right t (dur id)
    · intro i b tt hmem
      rcases List.mem_append.mp hmem with hmem | hmem
      · exact hinv.outcomes i b tt hmem
      · simp at hmem
  | finishRun id f hph =>
    have hwge := hinv.wake_ge
    have hls := hinv.last_start
    have hfifo := hinv.fifo
    have hstarted := hinv.started_eq
    unfold lastStartOK at hls
    rw [hph] at hls hfifo hstarted
    simp only [inflight] at hfifo hstarted
    refine ⟨?_, ?_, ?_, ?_, ?_, ?_, ?_⟩
    · intro hcon
      cases hcon
    · intro w hw
      simp only [wake, Option.some.injEq] at hw
      show f ≤ w
      omega
    · simp only [submittedIds_append, completedIds_append,
        submittedIds_completed, completedIds_completed, inflight,
        List.append_nil]
      rw [hfifo]
    · simp only [startedIds_append, completedIds_append,
        startedIds_completed, completedIds_completed, inflight,
        List.append_nil]
      rw [hstarted]
    · simp only [startTimes_append, startTimes_completed, List.append_nil]
      exact hinv.chain
    · unfold lastStartOK
      simp only [startTimes_append, startTimes_completed, List.append_nil]
      intro t0 ht0
      have := hls t0 ht0
      omega
    · intro i b tt hmem
      rcases List.mem_append.mp hmem with hmem | hmem
      · exact hinv.outcomes i b tt hmem
      · simp only [List.mem_singleton, REvent.completed.injEq] at hmem
        rw [hmem.2.1, hmem.1]
  | finishDelay_empty u hph hq =>
    have hls := hinv.last_start
    have hfifo := hinv.fifo
    have hstarted := hinv.started_eq
    unfold lastStartOK at hls
    rw [hph] at hls hfifo hstarted
    rw [hq] at hfifo
    simp only [inflight, List.append_nil] at hfifo hstarted
    refine ⟨?_, ?_, ?_, ?_, ?_, ?_, ?_⟩
    · intro _
      rfl
    · intro w hw
      simp [wake] at hw
    · simp only [inflight]
      simp [hfifo]
    · simp only [inflight]
      simp [hstarted]
    · exact hinv.chain
    · unfold lastStartOK
      simp only []
      exact hls
    · exact hinv.outcomes
  | finishDelay_next u h rest hph hq =>
    have hls := hinv.last_start
    have hfifo := hinv.fifo
    have hstarted := hinv.started_eq
    unfold lastStartOK at hls
    rw [hph] at hls hfifo hstarted
    rw [hq] at hfifo
    simp only [inflight, List.append_nil] at hfifo hstarted
    refine ⟨?_, ?_, ?_, ?_, ?_, ?_, ?_⟩
    · intro hcon
      cases hcon
    · intro w hw
      simp only [wake, Option.some.injEq] at hw
      show u ≤ w
      omega
    · simp only [submittedIds_append, completedIds_append,
        submittedIds_started, completedIds_started, inflight,
        List.append_nil]
      rw [hfifo]
      simp
    · simp only [startedIds_append, completedIds_append,
        startedIds_started, completedIds_started, inflight,
        List.append_nil]
      rw [hstarted]
    · simp only [startTimes_append, startTimes_started]
      exact chain_concat hinv.chain hls
    · unfold lastStartOK
      simp only [startTimes_append, startTimes_started]
      intro t0 ht0
      rw [List.getLast?_concat] at ht0
      cases ht0
      exact Nat.le_add_right u (dur h)
    · intro i b tt hmem
      rcases List.mem_append.mp hmem with hmem | hmem
      · exact hinv.outcomes i b tt hmem
      · simp at hmem

theorem RLInv_reachable {dur : Nat → Nat} {succeeds : Nat → Bool}
    {s : RLState} (h : RLReachable dur succeeds s) : RLInv dur succeeds s := by
  induction h with
  | init =>
    refine ⟨?_, ?_, ?_, ?_, ?_, ?_, ?_⟩
    · intro _
      rfl
    · intro w hw
      simp [RLInit, wake] at hw
    · rfl
    · rfl
    · exact List.chain'_nil
    · unfold lastStartOK
      intro t0 ht0
      simp [RLInit, startTimes] at ht0
    · intro i b t hmem
      simp [RLInit] at hmem
  | step hr hstep ih => exact RLInv_step ih hstep

/-- C2: over every reachable state of the rate limiter's event-loop
semantics, (i) consecutive `started` events are at least
`RATE_LIMIT_DELAY` (500 ms) apart; (ii) the units started so far are the
completed ones followed by the at most one unit in flight — at most one
unit is ever in flight; (iii) units complete in FIFO submission order (the
completed ids are a prefix of the submitted ids); (iv) each settle event
carries the outcome of its own unit only; and (v) a unit's failure does not
block the queue: from any state with a unit in flight and a non-empty
queue, the next unit starts `RATE_LIMIT_DELAY` after the settle, whatever
the outcome of the unit in flight. -/
theorem rateLimiter_pacing_fifo_isolation (dur : Nat → Nat)
    (succeeds : Nat → Bool) (s : RLState)
    (hs : RLReachable dur succeeds s) :
    List.Chain' (fun a b => a + RATE_LIMIT_DELAY ≤ b) (startTimes s.events)
    ∧ startedIds s.events = completedIds s.events ++ inflight s.phase
    ∧ (inflight s.phase).length ≤ 1
    ∧ (∃ pending, submittedIds s.events = completedIds s.events ++ pending)
    ∧ (∀ i b t, REvent.completed i b t ∈ s.events → b = succeeds i)
    ∧ (∀ i f h rest, s.phase = .running i f → s.queue = h :: rest →
        ∃ s₁ s₂, RLStep dur succeeds s s₁ ∧ RLStep dur succeeds s₁ s₂
          ∧ s₂.events = s.events
            ++ [.completed i (succeeds i) f,
                .started h (f + RATE_LIMIT_DELAY)]) := by
  have hinv := RLInv_reachable hs
  refine ⟨hinv.chain, hinv.started_eq, ?_, ?_, hinv.outcomes, ?_⟩
  · cases hp : s.phase <;> simp [inflight]
  · exact ⟨inflight s.phase ++ s.queue, by rw [hinv.fifo, List.append_assoc]⟩
  · intro i f h rest hph hq
    exact ⟨{ time := f, queue := s.queue,
             phase := .delaying (f + RATE_LIMIT_DELAY),
             events := s.events ++ [.completed i (succeeds i) f] },
           { time := f + RATE_LIMIT_DELAY, queue := rest,
             phase := .running h (f + RATE_LIMIT_DELAY + dur h),
             events := (s.events ++ [.completed i (succeeds i) f])
               ++ [.started h (f + RATE_LIMIT_DELAY)] },
           RLStep.finishRun s i f hph,
           RLStep.finishDelay_next _ (f + RATE_LIMIT_DELAY) h rest rfl hq,
           by simp⟩

/-- Durations of the two witness units of work. -/
def wDur : Nat → Nat := fun _ => 10

/-- Outcomes of the witness units: unit 1 fails, the others succeed. -/
def wSucceeds : Nat → Bool := fun i => decide (i ≠ 1)

/-- Final state of the witness run: unit 1 submitted at 0 and started
immediately, unit 2 submitted at 5 while unit 1 runs, unit 1 fails at 10,
unit 2 starts 500 ms later at 510. -/
def wRLFinal : RLState :=
  { time := 510, queue := [], phase := .running 2 520,
    events := [.submitted 1 0, .started 1 0, .submitted 2 5,
               .completed 1 false 10, .started 2 510] }

/-- Witness for C2: the concrete two-unit run (with the first unit
failing) reaches `wRLFinal`, whose starts are 500 ms apart and whose
settle events carry each unit's own outcome. -/
theorem rateLimiter_pacing_fifo_isolation_witness :
    List.Chain' (fun a b => a + RATE_LIMIT_DELAY ≤ b)
      (startTimes wRLFinal.events)
    ∧ (∀ i b t, REvent.completed i b t ∈ wRLFinal.events → b = wSucceeds i)
    ∧ (∃ pending, submittedIds wRLFinal.events
        = completedIds wRLFinal.events ++ pending) := by
  have h0 : RLReachable wDur wSucceeds RLInit := RLReachable.init
  have h1 := RLReachable.step h0
    (RLStep.submit_idle RLInit 1 0 1 [] (Nat.le_refl 0) rfl rfl)
  have h2 := RLReachable.step h1
    (RLStep.submit_busy _ 2 5 (by decide)
      (by intro w hw; simp [wake, wDur] at hw; omega) (by decide))
  have h3 := RLReachable.step h2 (RLStep.finishRun _ 1 10 rfl)
  have h4 := RLReachable.step h3
    (RLStep.finishDelay_next _ 510 2 [] rfl rfl)
  have hreach : RLReachable wDur wSucceeds wRLFinal := h4
  have h := rateLimiter_pacing_fifo_isolation wDur wSucceeds wRLFinal hreach
  exact ⟨h.1, h.2.2.2.2.1, h.2.2.2.1⟩
